import Mathlib

/-!
Formal model of the `MedianFilter` library (`MedianFilter.hpp`): a sliding-window
median filter over a ring buffer `data`, kept in sorted order through the pair of
mutually inverse index maps `sizeMap` (rank → ring slot) and `locationMap`
(ring slot → rank).  The sample type `T` is modelled as `ℤ`, the accumulator
type `Sum` as `ℤ` (an integral accumulator), the `uint8_t` index arrays as
`List ℕ`.  Raw array indexing is modelled by `List.getD`/`List.set`; every
access is proved in bounds for reachable states, so no wrap-around of the
8-bit index arithmetic occurs.
-/

namespace MedianFilterModel

/-- The Arduino `constrain` macro used by the constructor:
`(amt < low ? low : (amt > high ? high : amt))`. -/
def constrain (amt low high : Int) : Int :=
  if amt < low then low else if amt > high then high else amt

/-- State of a `MedianFilter<T, Sum>` object. -/
structure MedianFilter where
  medFilterWin : Nat
  medDataPointer : Nat
  data : List Int
  sizeMap : List Nat
  locationMap : List Nat
  oldestDataPoint : Nat
  totalSum : Int
deriving DecidableEq

/-- `MedianFilter::MedianFilter(int size, T seed)`. -/
def MedianFilter.make (size seed : Int) : MedianFilter :=
  let w := (constrain size 3 255).toNat
  { medFilterWin := w
    medDataPointer := w >>> 1
    data := List.replicate w seed
    sizeMap := List.range w
    locationMap := List.range w
    oldestDataPoint := w >>> 1
    totalSum := (w : Int) * seed }

/-- The `SORT LEFT` loop of `MedianFilter::in`: the loop variable `i` starts at
`locationMap[oldestDataPoint]` and counts down to 1; the value of `i` is the
recursion index (`i+1` in the pattern is the current loop value, `i` is the
neighbour index `n = i - 1` of the source). -/
def sortLeft (o : Nat) (data : List Int) :
    Nat → List Nat → List Nat → Bool → List Nat × List Nat × Bool
  | 0, sizeMap, locationMap, dataMoved => (sizeMap, locationMap, dataMoved)
  | i + 1, sizeMap, locationMap, dataMoved =>
    if data.getD o 0 < data.getD (sizeMap.getD i 0) 0 then
      let s := sizeMap.getD i 0
      let sizeMap1 := (sizeMap.set (i + 1) s).set i o
      let locationMap1 := locationMap.set s (locationMap.getD s 0 + 1)
      let locationMap2 := locationMap1.set o (locationMap1.getD o 0 - 1)
      sortLeft o data i sizeMap1 locationMap2 true
    else (sizeMap, locationMap, dataMoved)

/-- The `SORT RIGHT` loop of `MedianFilter::in`: the loop variable `i` starts at
`locationMap[oldestDataPoint]` and runs while `i < rightEdge`; the remaining
iteration count `rightEdge - i` is the recursion index, `i` is passed along. -/
def sortRight (o : Nat) (data : List Int) :
    Nat → Nat → List Nat → List Nat → List Nat × List Nat
  | 0, _, sizeMap, locationMap => (sizeMap, locationMap)
  | fuel + 1, i, sizeMap, locationMap =>
    if data.getD o 0 > data.getD (sizeMap.getD (i + 1) 0) 0 then
      let s := sizeMap.getD (i + 1) 0
      let sizeMap1 := (sizeMap.set i s).set (i + 1) o
      let locationMap1 := locationMap.set s (locationMap.getD s 0 - 1)
      let locationMap2 := locationMap1.set o (locationMap1.getD o 0 + 1)
      sortRight o data fuel (i + 1) sizeMap1 locationMap2
    else (sizeMap, locationMap)

/-- `MedianFilter::in(value)`: overwrite the oldest slot, repair the rank maps,
advance the ring cursor, and return the new median.  The result is the updated
filter state paired with the returned value. -/
def MedianFilter.insert (f : MedianFilter) (value : Int) : MedianFilter × Int :=
  let rightEdge := f.medFilterWin - 1
  let o := f.oldestDataPoint
  let totalSum1 := f.totalSum + value - f.data.getD o 0
  let data1 := f.data.set o value
  let left :=
    if 0 < f.locationMap.getD o 0 then
      sortLeft o data1 (f.locationMap.getD o 0) f.sizeMap f.locationMap false
    else
      (f.sizeMap, f.locationMap, false)
  let maps :=
    if left.2.2 = false ∧ left.2.1.getD o 0 < rightEdge then
      sortRight o data1 (rightEdge - left.2.1.getD o 0) (left.2.1.getD o 0) left.1 left.2.1
    else
      (left.1, left.2.1)
  let oldest1 := if o + 1 = f.medFilterWin then 0 else o + 1
  ({ f with data := data1, sizeMap := maps.1, locationMap := maps.2,
            oldestDataPoint := oldest1, totalSum := totalSum1 },
   data1.getD (maps.1.getD f.medDataPointer 0) 0)

/-- `MedianFilter::out()`: the current median, `data[sizeMap[medDataPointer]]`. -/
def MedianFilter.out (f : MedianFilter) : Int :=
  f.data.getD (f.sizeMap.getD f.medDataPointer 0) 0

/-- A call to the `const` method `out()` viewed as a state transformer:
the object is returned unchanged together with the value read. -/
def MedianFilter.outCall (f : MedianFilter) : MedianFilter × Int := (f, f.out)

/-- `MedianFilter::getMin()`: `data[sizeMap[0]]`. -/
def MedianFilter.getMin (f : MedianFilter) : Int :=
  f.data.getD (f.sizeMap.getD 0 0) 0

/-- `MedianFilter::getMax()`: `data[sizeMap[medFilterWin - 1]]`. -/
def MedianFilter.getMax (f : MedianFilter) : Int :=
  f.data.getD (f.sizeMap.getD (f.medFilterWin - 1) 0) 0

/-- `MedianFilter::getMean()`: `totalSum / medFilterWin`; C++ integer division
truncates toward zero, which is `Int.tdiv`. -/
def MedianFilter.getMean (f : MedianFilter) : Int :=
  Int.tdiv f.totalSum (f.medFilterWin : Int)

/-- The `diffSquareSum` accumulation loop of `getStdDev`, carried out in the
accumulator type: `mean` is computed once, then
`diffSquareSum += (data[i] - mean)^2` for `i = 0 .. medFilterWin - 1`. -/
def MedianFilter.diffSquareSum (f : MedianFilter) : Int :=
  (List.range f.medFilterWin).foldl
    (fun acc i => acc + (f.data.getD i 0 - f.getMean) * (f.data.getD i 0 - f.getMean)) 0

/-- `MedianFilter::getStdDev()` for the integral accumulator:
`Sum( sqrt( ((double)(diffSquareSum / (medFilterWin - 1.0))) + 0.5 ) )`.
The division happens in `double` (exactly, modelled in `ℝ`), `0.5` is added to
the quotient, the square root is taken, and the conversion back to the integral
`Sum` truncates (the argument is nonnegative, so truncation is `Int.floor`). -/
noncomputable def MedianFilter.getStdDev (f : MedianFilter) : Int :=
  ⌊Real.sqrt ((f.diffSquareSum : ℝ) / ((f.medFilterWin : ℝ) - 1) + 0.5)⌋

/-- `MedianFilter::getStdDev()` when the accumulator type `Sum` is a floating
point type, modelled as `ℝ`: `getMean` is then exact division and the final
`Sum(...)` conversion is the identity. -/
noncomputable def MedianFilter.getStdDevFloat (f : MedianFilter) : Real :=
  let mean : Real := (f.totalSum : ℝ) / (f.medFilterWin : ℝ)
  let diffSquareSum :=
    (List.range f.medFilterWin).foldl
      (fun acc i => acc + ((f.data.getD i 0 : ℝ) - mean) * ((f.data.getD i 0 : ℝ) - mean)) 0
  Real.sqrt (diffSquareSum / ((f.medFilterWin : ℝ) - 1) + 0.5)

/-- The standard-deviation formula exactly as the specification words it: square
root of the Bessel-corrected variance, with `0.5` added AFTER the square root
and the sum then truncated back to the accumulator type.  Written only to be
compared against the actual `getStdDev`. -/
noncomputable def MedianFilter.getStdDevClaimed (f : MedianFilter) : Int :=
  ⌊Real.sqrt ((f.diffSquareSum : ℝ) / ((f.medFilterWin : ℝ) - 1)) + 0.5⌋

/-- Run a freshly constructed filter over a list of inserted values. -/
def runFilter (size seed : Int) (vs : List Int) : MedianFilter :=
  vs.foldl (fun f v => (MedianFilter.insert f v).1) (MedianFilter.make size seed)

/-- From-scratch ascending sort of the current window; the reference the
specification compares the filter against. -/
def sortedWindow (f : MedianFilter) : List Int :=
  List.insertionSort (fun a b => a ≤ b) f.data

/-- The window read in rank order: `data[sizeMap[r]]` for `r = 0 .. N-1`. -/
def rankView (f : MedianFilter) : List Int :=
  (List.range f.medFilterWin).map (fun r => f.data.getD (f.sizeMap.getD r 0) 0)

/-! ### Generic helper lemmas about `List.getD` / `List.set` -/

theorem getD_eq_elem {α : Type} (l : List α) (i : Nat) (d : α) (h : i < l.length) :
    l.getD i d = l[i] := by
  simp [List.getD_eq_getElem?_getD, List.getElem?_eq_getElem h]

theorem getD_set_self {α : Type} (l : List α) (i : Nat) (v d : α) (h : i < l.length) :
    (l.set i v).getD i d = v := by
  simp [List.getD_eq_getElem?_getD, List.getElem?_set, h]

theorem getD_set_ne {α : Type} (l : List α) {i j : Nat} (v d : α) (h : i ≠ j) :
    (l.set i v).getD j d = l.getD j d := by
  simp [List.getD_eq_getElem?_getD, List.getElem?_set, h]

theorem getD_range (n i d : Nat) : (List.range n).getD i d = if i < n then i else d := by
  by_cases h : i < n
  · simp [List.getD_eq_getElem?_getD, List.getElem?_range h, h]
  · rw [List.getD_eq_getElem?_getD, List.getElem?_eq_none (by simpa using Nat.le_of_not_lt h)]
    simp [h]

theorem getD_replicate {α : Type} (n : Nat) (i : Nat) (a d : α) :
    (List.replicate n a).getD i d = if i < n then a else d := by
  rw [List.getD_eq_getElem?_getD, List.getElem?_replicate]
  by_cases h : i < n <;> simp [h]

theorem sum_set_int : ∀ (l : List Int) (i : Nat) (v : Int), i < l.length →
    (l.set i v).sum = l.sum + v - l.getD i 0
  | a :: l, 0, v, _ => by
    show (v :: l).sum = (a :: l).sum + v - (a :: l).getD 0 0
    simp [List.sum_cons]
    ring
  | a :: l, i + 1, v, h => by
    show (a :: l.set i v).sum = (a :: l).sum + v - (a :: l).getD (i + 1) 0
    have ih := sum_set_int l i v (Nat.lt_of_succ_lt_succ h)
    simp [List.sum_cons, ih, List.getD_cons_succ]
    ring

theorem mono_of_adjacent {W : Nat → Int} {N : Nat}
    (h : ∀ j, j + 1 < N → W j ≤ W (j + 1)) :
    ∀ x y, x ≤ y → y < N → W x ≤ W y := by
  intro x y hxy hyN
  obtain ⟨d, rfl⟩ := Nat.exists_eq_add_of_le hxy
  clear hxy
  induction d with
  | zero => simp
  | succ d ih =>
    have hd : x + d + 1 < N := by omega
    exact le_trans (ih (by omega)) (h (x + d) (by omega))

/-! ### The reachable-state invariant -/

/-- Well-formedness of a filter state: the invariants of §3 of the spec.
`hls`/`hsl` say `locationMap` and `sizeMap` are mutually inverse permutations
of `{0, …, N-1}`, `hsorted` that `data` read through `sizeMap` is ascending,
`hsum` that `totalSum` is the exact window sum. -/
structure Valid (f : MedianFilter) : Prop where
  hN3 : 3 ≤ f.medFilterWin
  hN255 : f.medFilterWin ≤ 255
  hmed : f.medDataPointer = f.medFilterWin / 2
  hdata : f.data.length = f.medFilterWin
  hsm : f.sizeMap.length = f.medFilterWin
  hlm : f.locationMap.length = f.medFilterWin
  hold : f.oldestDataPoint < f.medFilterWin
  hsmlt : ∀ r, r < f.medFilterWin → f.sizeMap.getD r 0 < f.medFilterWin
  hlmlt : ∀ k, k < f.medFilterWin → f.locationMap.getD k 0 < f.medFilterWin
  hls : ∀ k, k < f.medFilterWin → f.locationMap.getD (f.sizeMap.getD k 0) 0 = k
  hsl : ∀ k, k < f.medFilterWin → f.sizeMap.getD (f.locationMap.getD k 0) 0 = k
  hsorted : ∀ r, r + 1 < f.medFilterWin →
    f.data.getD (f.sizeMap.getD r 0) 0 ≤ f.data.getD (f.sizeMap.getD (r + 1) 0) 0
  hsum : f.totalSum = f.data.sum

theorem constrain_lower (size : Int) : 3 ≤ constrain size 3 255 := by
  unfold constrain; split_ifs <;> omega

theorem constrain_upper (size : Int) : constrain size 3 255 ≤ 255 := by
  unfold constrain; split_ifs <;> omega

theorem make_medFilterWin (size seed : Int) :
    (MedianFilter.make size seed).medFilterWin = (constrain size 3 255).toNat := rfl

theorem valid_make (size seed : Int) : Valid (MedianFilter.make size seed) := by
  have hc3 := constrain_lower size
  have hc255 := constrain_upper size
  have hw3 : 3 ≤ (constrain size 3 255).toNat := by omega
  have hw255 : (constrain size 3 255).toNat ≤ 255 := by omega
  have hshift : (constrain size 3 255).toNat >>> 1 = (constrain size 3 255).toNat / 2 := by
    rw [Nat.shiftRight_eq_div_pow, pow_one]
  refine ⟨?_, ?_, ?_, ?_, ?_, ?_, ?_, ?_, ?_, ?_, ?_, ?_, ?_⟩ <;>
    simp only [MedianFilter.make, List.length_replicate, List.length_range]
  · exact hw3
  · exact hw255
  · exact hshift
  · rw [hshift]; exact Nat.div_lt_self (by omega) (by omega)
  · intro r hr; simp [getD_range, hr]
  · intro k hk; simp [getD_range, hk]
  · intro k hk; simp [getD_range, hk]
  · intro k hk; simp [getD_range, hk]
  · intro r hr
    have h1 : r < (constrain size 3 255).toNat := by omega
    simp [getD_range, getD_replicate, h1, hr]
  · rw [List.sum_replicate, nsmul_eq_mul]

/-! ### Characterisation of the two repair passes -/

/-- The index maps are mutually inverse permutations of `{0, …, N-1}`. -/
structure MapsOk (N : Nat) (sm lm : List Nat) : Prop where
  hsm : sm.length = N
  hlm : lm.length = N
  hsmlt : ∀ r, r < N → sm.getD r 0 < N
  hlmlt : ∀ k, k < N → lm.getD k 0 < N
  hls : ∀ k, k < N → lm.getD (sm.getD k 0) 0 = k
  hsl : ∀ k, k < N → sm.getD (lm.getD k 0) 0 = k

theorem sortLeft_zero (o : Nat) (data : List Int) (sm lm : List Nat) (b : Bool) :
    sortLeft o data 0 sm lm b = (sm, lm, b) := rfl

theorem sortLeft_succ (o : Nat) (data : List Int) (i : Nat) (sm lm : List Nat) (b : Bool) :
    sortLeft o data (i + 1) sm lm b =
      if data.getD o 0 < data.getD (sm.getD i 0) 0 then
        sortLeft o data i
          ((sm.set (i + 1) (sm.getD i 0)).set i o)
          ((lm.set (sm.getD i 0) (lm.getD (sm.getD i 0) 0 + 1)).set o
            ((lm.set (sm.getD i 0) (lm.getD (sm.getD i 0) 0 + 1)).getD o 0 - 1))
          true
      else (sm, lm, b) := rfl

/-- Full characterisation of the `SORT LEFT` loop, relative to the maps at loop
entry: the loop moves the hole (slot `o`, at rank `i` on entry) down to some
final rank `r ≤ i`; ranks `r ≤ x < i` shift up by one, every slot shifted over
carries a value strictly greater than the new value, the loop stopped either at
rank 0 or at a left neighbour not greater than the new value, and the maps stay
mutually inverse. -/
theorem sortLeft_spec (data : List Int) (N o : Nat) (ho : o < N) :
    ∀ (i : Nat) (sm lm : List Nat) (b : Bool), MapsOk N sm lm → lm.getD o 0 = i →
      ∃ r, r ≤ i ∧
        MapsOk N (sortLeft o data i sm lm b).1 (sortLeft o data i sm lm b).2.1 ∧
        (sortLeft o data i sm lm b).2.2 = (b || decide (r < i)) ∧
        (∀ j, j < N → (sortLeft o data i sm lm b).1.getD j 0 =
          if j < r then sm.getD j 0
          else if j = r then o
          else if j ≤ i then sm.getD (j - 1) 0
          else sm.getD j 0) ∧
        (∀ k, k < N → k ≠ o → (sortLeft o data i sm lm b).2.1.getD k 0 =
          if r ≤ lm.getD k 0 ∧ lm.getD k 0 < i then lm.getD k 0 + 1 else lm.getD k 0) ∧
        (sortLeft o data i sm lm b).2.1.getD o 0 = r ∧
        (∀ k, k < N → k ≠ o → r ≤ lm.getD k 0 → lm.getD k 0 < i →
          data.getD o 0 < data.getD k 0) ∧
        (0 < r → data.getD (sm.getD (r - 1) 0) 0 ≤ data.getD o 0) := by
  intro i
  induction i with
  | zero =>
    intro sm lm b hok hlmo
    have hsm0 : sm.getD 0 0 = o := by
      have h := hok.hsl o ho
      rw [hlmo] at h
      exact h
    refine ⟨0, le_refl 0, hok, by simp [sortLeft_zero], ?_, ?_, hlmo, ?_, ?_⟩
    · intro j hj
      rcases Nat.eq_zero_or_pos j with rfl | hj0
      · rw [sortLeft_zero, if_neg (by omega), if_pos rfl]
        exact hsm0
      · rw [sortLeft_zero, if_neg (by omega), if_neg (by omega), if_neg (by omega)]
    · intro k hk hko
      rw [sortLeft_zero, if_neg (by omega : ¬(0 ≤ lm.getD k 0 ∧ lm.getD k 0 < 0))]
    · intro k hk hko h1 h2
      exact absurd h2 (by omega)
    · intro h
      exact absurd h (by omega)
  | succ i ih =>
    intro sm lm b hok hlmo
    have hiN : i + 1 < N := hlmo ▸ hok.hlmlt o ho
    have hiN' : i < N := Nat.lt_of_succ_lt hiN
    have hsmi1 : sm.getD (i + 1) 0 = o := by
      have h := hok.hsl o ho; rw [hlmo] at h; exact h
    by_cases hc : data.getD o 0 < data.getD (sm.getD i 0) 0
    · -- the loop shifts the neighbour at rank i up and continues at rank i
      have hsN : sm.getD i 0 < N := hok.hsmlt i hiN'
      have hlms : lm.getD (sm.getD i 0) 0 = i := hok.hls i hiN'
      have hso : sm.getD i 0 ≠ o := by
        intro h; rw [h, hlmo] at hlms; omega
      have hres : sortLeft o data (i + 1) sm lm b =
          sortLeft o data i ((sm.set (i + 1) (sm.getD i 0)).set i o)
            ((lm.set (sm.getD i 0) (i + 1)).set o i) true := by
        rw [sortLeft_succ, if_pos hc, hlms]
        have h1 : (lm.set (sm.getD i 0) (i + 1)).getD o 0 = i + 1 := by
          rw [getD_set_ne lm _ _ hso, hlmo]
        rw [h1, Nat.add_sub_cancel]
      -- entry values of the updated maps
      have hsm1len : ((sm.set (i + 1) (sm.getD i 0)).set i o).length = N := by
        rw [List.length_set, List.length_set, hok.hsm]
      have hlm2len : ((lm.set (sm.getD i 0) (i + 1)).set o i).length = N := by
        rw [List.length_set, List.length_set, hok.hlm]
      have hsm1i : ((sm.set (i + 1) (sm.getD i 0)).set i o).getD i 0 = o :=
        getD_set_self _ i o 0 (by rw [List.length_set, hok.hsm]; exact hiN')
      have hsm1i1 : ((sm.set (i + 1) (sm.getD i 0)).set i o).getD (i + 1) 0 = sm.getD i 0 := by
        rw [getD_set_ne _ _ _ (by omega : i ≠ i + 1),
          getD_set_self sm (i + 1) _ 0 (by rw [hok.hsm]; exact hiN)]
      have hsm1other : ∀ j, j ≠ i → j ≠ i + 1 →
          ((sm.set (i + 1) (sm.getD i 0)).set i o).getD j 0 = sm.getD j 0 := by
        intro j h1 h2
        rw [getD_set_ne _ _ _ (fun h => h1 h.symm), getD_set_ne _ _ _ (fun h => h2 h.symm)]
      have hlm2o : ((lm.set (sm.getD i 0) (i + 1)).set o i).getD o 0 = i :=
        getD_set_self _ o i 0 (by rw [List.length_set, hok.hlm]; exact ho)
      have hlm2s : ((lm.set (sm.getD i 0) (i + 1)).set o i).getD (sm.getD i 0) 0 = i + 1 := by
        rw [getD_set_ne _ _ _ (fun h => hso h.symm),
          getD_set_self lm _ _ 0 (by rw [hok.hlm]; exact hsN)]
      have hlm2other : ∀ k, k ≠ sm.getD i 0 → k ≠ o →
          ((lm.set (sm.getD i 0) (i + 1)).set o i).getD k 0 = lm.getD k 0 := by
        intro k h1 h2
        rw [getD_set_ne _ _ _ (fun h => h2 h.symm), getD_set_ne _ _ _ (fun h => h1 h.symm)]
      -- slots other than i, i+1 point to slots other than sm.getD i 0, o
      have hslotne : ∀ k, k < N → k ≠ i → k ≠ i + 1 →
          sm.getD k 0 ≠ sm.getD i 0 ∧ sm.getD k 0 ≠ o := by
        intro k hk h1 h2
        constructor
        · intro h
          have := hok.hls k hk
          rw [h, hlms] at this
          exact h1 this.symm
        · intro h
          have := hok.hls k hk
          rw [h, hlmo] at this
          exact h2 this.symm
      have hrankne : ∀ k, k < N → k ≠ o → k ≠ sm.getD i 0 →
          lm.getD k 0 ≠ i ∧ lm.getD k 0 ≠ i + 1 := by
        intro k hk h1 h2
        constructor
        · intro h
          have := hok.hsl k hk
          rw [h] at this
          exact h2 this.symm
        · intro h
          have := hok.hsl k hk
          rw [h, hsmi1] at this
          exact h1 this.symm
      have hok1 : MapsOk N ((sm.set (i + 1) (sm.getD i 0)).set i o)
          ((lm.set (sm.getD i 0) (i + 1)).set o i) := by
        refine ⟨hsm1len, hlm2len, ?_, ?_, ?_, ?_⟩
        · intro j hj
          by_cases h1 : j = i
          · rw [h1, hsm1i]; exact ho
          · by_cases h2 : j = i + 1
            · rw [h2, hsm1i1]; exact hsN
            · rw [hsm1other j h1 h2]; exact hok.hsmlt j hj
        · intro k hk
          by_cases h1 : k = o
          · rw [h1, hlm2o]; exact hiN'
          · by_cases h2 : k = sm.getD i 0
            · rw [h2, hlm2s]; exact hiN
            · rw [hlm2other k h2 h1]; exact hok.hlmlt k hk
        · intro k hk
          by_cases h1 : k = i
          · rw [h1, hsm1i, hlm2o]
          · by_cases h2 : k = i + 1
            · rw [h2, hsm1i1, hlm2s]
            · rw [hsm1other k h1 h2]
              obtain ⟨hne1, hne2⟩ := hslotne k hk h1 h2
              rw [hlm2other _ hne1 hne2]
              exact hok.hls k hk
        · intro k hk
          by_cases h1 : k = o
          · rw [h1, hlm2o, hsm1i]
          · by_cases h2 : k = sm.getD i 0
            · rw [h2, hlm2s, hsm1i1]
            · rw [hlm2other k h2 h1]
              obtain ⟨hne1, hne2⟩ := hrankne k hk h1 h2
              rw [hsm1other _ hne1 hne2]
              exact hok.hsl k hk
      obtain ⟨r, hr, hok', hb', hsmchar, hlmchar, hlmo', hstrict, hstop⟩ :=
        ih ((sm.set (i + 1) (sm.getD i 0)).set i o) ((lm.set (sm.getD i 0) (i + 1)).set o i)
          true hok1 hlm2o
      refine ⟨r, by omega, ?_, ?_, ?_, ?_, ?_, ?_, ?_⟩
      · rw [hres]; exact hok'
      · rw [hres, hb']
        have : r < i + 1 := by omega
        simp [this]
      · -- sizeMap characterisation
        intro j hj
        rw [hres, hsmchar j hj]
        by_cases h1 : j < r
        · rw [if_pos h1, if_pos h1, hsm1other j (by omega) (by omega)]
        · by_cases h2 : j = r
          · rw [if_neg h1, if_neg h1, if_pos h2, if_pos h2]
          · by_cases h3 : j ≤ i
            · rw [if_neg h1, if_neg h1, if_pos h3, if_neg h2, if_neg h2,
                if_pos (by omega : j ≤ i + 1), hsm1other (j - 1) (by omega) (by omega)]
            · by_cases h4 : j = i + 1
              · rw [if_neg h1, if_neg h2, if_neg h3, if_neg h1, if_neg h2,
                  if_pos (by omega : j ≤ i + 1), h4, hsm1i1]
                have : i + 1 - 1 = i := by omega
                rw [this]
              · rw [if_neg h1, if_neg h2, if_neg h3, if_neg h1, if_neg h2,
                  if_neg (by omega : ¬j ≤ i + 1), hsm1other j (by omega) h4]
      · -- locationMap characterisation
        intro k hk hko
        rw [hres]
        by_cases h2 : k = sm.getD i 0
        · rw [hlmchar k hk hko, h2, hlm2s, hlms,
            if_neg (by omega : ¬(r ≤ i + 1 ∧ i + 1 < i)),
            if_pos (by omega : r ≤ i ∧ i < i + 1)]
        · obtain ⟨hne1, hne2⟩ := hrankne k hk hko h2
          rw [hlmchar k hk hko, hlm2other k h2 hko]
          by_cases h3 : r ≤ lm.getD k 0 ∧ lm.getD k 0 < i
          · rw [if_pos h3, if_pos (by omega : r ≤ lm.getD k 0 ∧ lm.getD k 0 < i + 1)]
          · rw [if_neg h3, if_neg (by omega : ¬(r ≤ lm.getD k 0 ∧ lm.getD k 0 < i + 1))]
      · rw [hres]; exact hlmo'
      · -- shifted slots carry strictly larger values
        intro k hk hko h1 h2
        by_cases h3 : k = sm.getD i 0
        · rw [h3]; exact hc
        · obtain ⟨hne1, hne2⟩ := hrankne k hk hko h3
          have h2' : lm.getD k 0 < i := by omega
          have := hstrict k hk hko
          rw [hlm2other k h3 hko] at this
          exact this h1 h2'
      · -- stop condition
        intro h0
        have := hstop h0
        rw [hsm1other (r - 1) (by omega) (by omega)] at this
        exact this
    · -- no shift: the loop breaks immediately
      have hres : sortLeft o data (i + 1) sm lm b = (sm, lm, b) := by
        rw [sortLeft_succ, if_neg hc]
      refine ⟨i + 1, le_refl _, ?_, ?_, ?_, ?_, ?_, ?_, ?_⟩
      · rw [hres]; exact hok
      · rw [hres]; simp
      · intro j hj
        rw [hres]
        by_cases h1 : j < i + 1
        · rw [if_pos h1]
        · by_cases h2 : j = i + 1
          · rw [if_neg h1, if_pos h2, h2, hsmi1]
          · rw [if_neg h1, if_neg h2, if_neg (by omega : ¬j ≤ i + 1)]
      · intro k hk hko
        rw [hres, if_neg (by omega : ¬(i + 1 ≤ lm.getD k 0 ∧ lm.getD k 0 < i + 1))]
      · rw [hres]; exact hlmo
      · intro k hk hko h1 h2
        exact absurd (Nat.lt_of_le_of_lt h1 h2) (Nat.lt_irrefl _)
      · intro _
        have h : i + 1 - 1 = i := by omega
        rw [h]
        exact le_of_not_lt hc

theorem sortRight_zero (o : Nat) (data : List Int) (i : Nat) (sm lm : List Nat) :
    sortRight o data 0 i sm lm = (sm, lm) := rfl

theorem sortRight_succ (o : Nat) (data : List Int) (fuel i : Nat) (sm lm : List Nat) :
    sortRight o data (fuel + 1) i sm lm =
      if data.getD o 0 > data.getD (sm.getD (i + 1) 0) 0 then
        sortRight o data fuel (i + 1)
          ((sm.set i (sm.getD (i + 1) 0)).set (i + 1) o)
          ((lm.set (sm.getD (i + 1) 0) (lm.getD (sm.getD (i + 1) 0) 0 - 1)).set o
            ((lm.set (sm.getD (i + 1) 0) (lm.getD (sm.getD (i + 1) 0) 0 - 1)).getD o 0 + 1))
      else (sm, lm) := rfl

/-- Full characterisation of the `SORT RIGHT` loop, relative to the maps at loop
entry: the hole (slot `o`, at rank `i` on entry) moves up to some final rank
`r` with `i ≤ r ≤ N-1`; ranks `i < x ≤ r` shift down by one, every slot
shifted over carries a value strictly smaller than the new value, the loop
stopped either at the right edge or at a right neighbour not smaller than the
new value, and the maps stay mutually inverse. -/
theorem sortRight_spec (data : List Int) (N o : Nat) (ho : o < N) :
    ∀ (fuel i : Nat) (sm lm : List Nat), MapsOk N sm lm → lm.getD o 0 = i →
      i + fuel = N - 1 →
      ∃ r, i ≤ r ∧ r ≤ N - 1 ∧
        MapsOk N (sortRight o data fuel i sm lm).1 (sortRight o data fuel i sm lm).2 ∧
        (∀ j, j < N → (sortRight o data fuel i sm lm).1.getD j 0 =
          if j < i then sm.getD j 0
          else if j < r then sm.getD (j + 1) 0
          else if j = r then o
          else sm.getD j 0) ∧
        (∀ k, k < N → k ≠ o → (sortRight o data fuel i sm lm).2.getD k 0 =
          if i < lm.getD k 0 ∧ lm.getD k 0 ≤ r then lm.getD k 0 - 1 else lm.getD k 0) ∧
        (sortRight o data fuel i sm lm).2.getD o 0 = r ∧
        (∀ k, k < N → k ≠ o → i < lm.getD k 0 → lm.getD k 0 ≤ r →
          data.getD k 0 < data.getD o 0) ∧
        (r + 1 < N → data.getD o 0 ≤ data.getD (sm.getD (r + 1) 0) 0) := by
  intro fuel
  induction fuel with
  | zero =>
    intro i sm lm hok hlmo hfuel
    have hiN : i < N := by omega
    have hsmio : sm.getD i 0 = o := by
      have h := hok.hsl o ho; rw [hlmo] at h; exact h
    refine ⟨i, le_refl i, by omega, hok, ?_, ?_, hlmo, ?_, ?_⟩
    · intro j hj
      rw [sortRight_zero]
      by_cases h1 : j < i
      · rw [if_pos h1]
      · by_cases h2 : j = i
        · rw [if_neg h1, if_neg (by omega : ¬j < i), if_pos h2, h2, hsmio]
        · rw [if_neg h1, if_neg (by omega : ¬j < i), if_neg h2]
    · intro k hk hko
      rw [sortRight_zero, if_neg (by omega : ¬(i < lm.getD k 0 ∧ lm.getD k 0 ≤ i))]
    · intro k hk hko h1 h2
      exact absurd (Nat.lt_of_lt_of_le h1 h2) (Nat.lt_irrefl _)
    · intro h
      exact absurd h (by omega)
  | succ fuel ih =>
    intro i sm lm hok hlmo hfuel
    have hi1N : i + 1 < N := by omega
    have hiN : i < N := by omega
    have hsmio : sm.getD i 0 = o := by
      have h := hok.hsl o ho; rw [hlmo] at h; exact h
    by_cases hc : data.getD o 0 > data.getD (sm.getD (i + 1) 0) 0
    · -- the loop shifts the neighbour at rank i+1 down and continues at rank i+1
      have hsN : sm.getD (i + 1) 0 < N := hok.hsmlt (i + 1) hi1N
      have hlms : lm.getD (sm.getD (i + 1) 0) 0 = i + 1 := hok.hls (i + 1) hi1N
      have hso : sm.getD (i + 1) 0 ≠ o := by
        intro h; rw [h, hlmo] at hlms; omega
      have hres : sortRight o data (fuel + 1) i sm lm =
          sortRight o data fuel (i + 1) ((sm.set i (sm.getD (i + 1) 0)).set (i + 1) o)
            ((lm.set (sm.getD (i + 1) 0) i).set o (i + 1)) := by
        rw [sortRight_succ, if_pos hc, hlms, Nat.add_sub_cancel]
        have h1 : (lm.set (sm.getD (i + 1) 0) i).getD o 0 = i := by
          rw [getD_set_ne lm _ _ hso, hlmo]
        rw [h1]
      have hsm1len : ((sm.set i (sm.getD (i + 1) 0)).set (i + 1) o).length = N := by
        rw [List.length_set, List.length_set, hok.hsm]
      have hlm2len : ((lm.set (sm.getD (i + 1) 0) i).set o (i + 1)).length = N := by
        rw [List.length_set, List.length_set, hok.hlm]
      have hsm1i1 : ((sm.set i (sm.getD (i + 1) 0)).set (i + 1) o).getD (i + 1) 0 = o :=
        getD_set_self _ (i + 1) o 0 (by rw [List.length_set, hok.hsm]; exact hi1N)
      have hsm1i : ((sm.set i (sm.getD (i + 1) 0)).set (i + 1) o).getD i 0 = sm.getD (i + 1) 0 := by
        rw [getD_set_ne _ _ _ (by omega : i + 1 ≠ i),
          getD_set_self sm i _ 0 (by rw [hok.hsm]; exact hiN)]
      have hsm1other : ∀ j, j ≠ i → j ≠ i + 1 →
          ((sm.set i (sm.getD (i + 1) 0)).set (i + 1) o).getD j 0 = sm.getD j 0 := by
        intro j h1 h2
        rw [getD_set_ne _ _ _ (fun h => h2 h.symm), getD_set_ne _ _ _ (fun h => h1 h.symm)]
      have hlm2o : ((lm.set (sm.getD (i + 1) 0) i).set o (i + 1)).getD o 0 = i + 1 :=
        getD_set_self _ o (i + 1) 0 (by rw [List.length_set, hok.hlm]; exact ho)
      have hlm2s : ((lm.set (sm.getD (i + 1) 0) i).set o (i + 1)).getD (sm.getD (i + 1) 0) 0
          = i := by
        rw [getD_set_ne _ _ _ (fun h => hso h.symm),
          getD_set_self lm _ _ 0 (by rw [hok.hlm]; exact hsN)]
      have hlm2other : ∀ k, k ≠ sm.getD (i + 1) 0 → k ≠ o →
          ((lm.set (sm.getD (i + 1) 0) i).set o (i + 1)).getD k 0 = lm.getD k 0 := by
        intro k h1 h2
        rw [getD_set_ne _ _ _ (fun h => h2 h.symm), getD_set_ne _ _ _ (fun h => h1 h.symm)]
      have hslotne : ∀ k, k < N → k ≠ i → k ≠ i + 1 →
          sm.getD k 0 ≠ sm.getD (i + 1) 0 ∧ sm.getD k 0 ≠ o := by
        intro k hk h1 h2
        constructor
        · intro h
          have := hok.hls k hk
          rw [h, hlms] at this
          exact h2 this.symm
        · intro h
          have := hok.hls k hk
          rw [h, hlmo] at this
          exact h1 this.symm
      have hrankne : ∀ k, k < N → k ≠ o → k ≠ sm.getD (i + 1) 0 →
          lm.getD k 0 ≠ i ∧ lm.getD k 0 ≠ i + 1 := by
        intro k hk h1 h2
        constructor
        · intro h
          have := hok.hsl k hk
          rw [h, hsmio] at this
          exact h1 this.symm
        · intro h
          have := hok.hsl k hk
          rw [h] at this
          exact h2 this.symm
      have hok1 : MapsOk N ((sm.set i (sm.getD (i + 1) 0)).set (i + 1) o)
          ((lm.set (sm.getD (i + 1) 0) i).set o (i + 1)) := by
        refine ⟨hsm1len, hlm2len, ?_, ?_, ?_, ?_⟩
        · intro j hj
          by_cases h1 : j = i
          · rw [h1, hsm1i]; exact hsN
          · by_cases h2 : j = i + 1
            · rw [h2, hsm1i1]; exact ho
            · rw [hsm1other j h1 h2]; exact hok.hsmlt j hj
        · intro k hk
          by_cases h1 : k = o
          · rw [h1, hlm2o]; exact hi1N
          · by_cases h2 : k = sm.getD (i + 1) 0
            · rw [h2, hlm2s]; exact hiN
            · rw [hlm2other k h2 h1]; exact hok.hlmlt k hk
        · intro k hk
          by_cases h1 : k = i
          · rw [h1, hsm1i, hlm2s]
          · by_cases h2 : k = i + 1
            · rw [h2, hsm1i1, hlm2o]
            · rw [hsm1other k h1 h2]
              obtain ⟨hne1, hne2⟩ := hslotne k hk h1 h2
              rw [hlm2other _ hne1 hne2]
              exact hok.hls k hk
        · intro k hk
          by_cases h1 : k = o
          · rw [h1, hlm2o, hsm1i1]
          · by_cases h2 : k = sm.getD (i + 1) 0
            · rw [h2, hlm2s, hsm1i]
            · rw [hlm2other k h2 h1]
              obtain ⟨hne1, hne2⟩ := hrankne k hk h1 h2
              rw [hsm1other _ hne1 hne2]
              exact hok.hsl k hk
      obtain ⟨r, hri, hrN, hok', hsmchar, hlmchar, hlmo', hstrict, hstop⟩ :=
        ih (i + 1) ((sm.set i (sm.getD (i + 1) 0)).set (i + 1) o)
          ((lm.set (sm.getD (i + 1) 0) i).set o (i + 1)) hok1 hlm2o (by omega)
      refine ⟨r, by omega, hrN, ?_, ?_, ?_, ?_, ?_, ?_⟩
      · rw [hres]; exact hok'
      · -- sizeMap characterisation
        intro j hj
        rw [hres, hsmchar j hj]
        by_cases h1 : j < i
        · rw [if_pos (by omega : j < i + 1), if_pos h1,
            hsm1other j (by omega) (by omega)]
        · by_cases h2 : j = i
          · rw [if_pos (by omega : j < i + 1), if_neg (by omega : ¬j < i),
              if_pos (by omega : j < r), h2, hsm1i]
          · by_cases h3 : j < r
            · rw [if_neg (by omega : ¬j < i + 1), if_pos h3, if_neg (by omega : ¬j < i),
                if_pos h3, hsm1other (j + 1) (by omega) (by omega)]
            · by_cases h4 : j = r
              · rw [if_neg (by omega : ¬j < i + 1), if_neg h3, if_pos h4,
                  if_neg (by omega : ¬j < i), if_neg h3, if_pos h4]
              · rw [if_neg (by omega : ¬j < i + 1), if_neg h3, if_neg h4,
                  if_neg (by omega : ¬j < i), if_neg h3, if_neg h4,
                  hsm1other j (by omega) (by omega)]
      · -- locationMap characterisation
        intro k hk hko
        rw [hres]
        by_cases h2 : k = sm.getD (i + 1) 0
        · rw [hlmchar k hk hko, h2, hlm2s, hlms,
            if_neg (by omega : ¬(i + 1 < i ∧ i ≤ r)),
            if_pos (by omega : i < i + 1 ∧ i + 1 ≤ r)]
          omega
        · obtain ⟨hne1, hne2⟩ := hrankne k hk hko h2
          rw [hlmchar k hk hko, hlm2other k h2 hko]
          by_cases h3 : i + 1 < lm.getD k 0 ∧ lm.getD k 0 ≤ r
          · rw [if_pos h3, if_pos (by omega : i < lm.getD k 0 ∧ lm.getD k 0 ≤ r)]
          · rw [if_neg h3, if_neg (by omega : ¬(i < lm.getD k 0 ∧ lm.getD k 0 ≤ r))]
      · rw [hres]; exact hlmo'
      · -- shifted slots carry strictly smaller values
        intro k hk hko h1 h2
        by_cases h3 : k = sm.getD (i + 1) 0
        · rw [h3]; exact hc
        · obtain ⟨hne1, hne2⟩ := hrankne k hk hko h3
          have h1' : i + 1 < lm.getD k 0 := by omega
          have := hstrict k hk hko
          rw [hlm2other k h3 hko] at this
          exact this h1' h2
      · -- stop condition
        intro hrN'
        have := hstop hrN'
        rw [hsm1other (r + 1) (by omega) (by omega)] at this
        exact this
    · -- no shift: the loop breaks immediately
      have hres : sortRight o data (fuel + 1) i sm lm = (sm, lm) := by
        rw [sortRight_succ, if_neg hc]
      refine ⟨i, le_refl i, by omega, ?_, ?_, ?_, ?_, ?_, ?_⟩
      · rw [hres]; exact hok
      · intro j hj
        rw [hres]
        by_cases h1 : j < i
        · rw [if_pos h1]
        · by_cases h2 : j = i
          · rw [if_neg h1, if_neg (by omega : ¬j < i), if_pos h2, h2, hsmio]
          · rw [if_neg h1, if_neg (by omega : ¬j < i), if_neg h2]
      · intro k hk hko
        rw [hres, if_neg (by omega : ¬(i < lm.getD k 0 ∧ lm.getD k 0 ≤ i))]
      · rw [hres]; exact hlmo
      · intro k hk hko h1 h2
        exact absurd (Nat.lt_of_lt_of_le h1 h2) (Nat.lt_irrefl _)
      · intro _
        exact le_of_not_lt hc

/-- Sortedness of the rank view after a completed left repair pass: the view was
sorted with a hole at rank `i₀`, the hole moved down to rank `r < i₀`, the pass
stopped below a neighbour not greater than the new value, and every rank shifted
over carries a value strictly greater than the new value. -/
theorem sorted_after_left (N o i₀ r : Nat) (data1 : List Int) (sm smL : List Nat)
    (hrlt : r < i₀) (_hi₀N : i₀ < N)
    (hchar : ∀ j, j < N → smL.getD j 0 =
      if j < r then sm.getD j 0
      else if j = r then o
      else if j ≤ i₀ then sm.getD (j - 1) 0
      else sm.getD j 0)
    (hhole : ∀ x y, x ≤ y → y < N → x ≠ i₀ → y ≠ i₀ →
      data1.getD (sm.getD x 0) 0 ≤ data1.getD (sm.getD y 0) 0)
    (hstop : 0 < r → data1.getD (sm.getD (r - 1) 0) 0 ≤ data1.getD o 0)
    (hstrict : ∀ x, r ≤ x → x < i₀ → data1.getD o 0 < data1.getD (sm.getD x 0) 0) :
    ∀ j, j + 1 < N → data1.getD (smL.getD j 0) 0 ≤ data1.getD (smL.getD (j + 1) 0) 0 := by
  intro j hj
  rw [hchar j (by omega), hchar (j + 1) (by omega)]
  by_cases c1 : j + 1 < r
  · rw [if_pos (by omega : j < r), if_pos c1]
    exact hhole j (j + 1) (by omega) (by omega) (by omega) (by omega)
  · by_cases c2 : j + 1 = r
    · rw [if_pos (by omega : j < r), if_neg c1, if_pos c2]
      have h := hstop (by omega)
      have hr1 : r - 1 = j := by omega
      rw [hr1] at h
      exact h
    · by_cases c3 : j = r
      · rw [if_neg (by omega : ¬j < r), if_pos c3, if_neg c1, if_neg c2,
          if_pos (by omega : j + 1 ≤ i₀)]
        have h := hstrict r (le_refl r) hrlt
        have hr1 : j + 1 - 1 = r := by omega
        rw [hr1]
        exact le_of_lt h
      · by_cases c4 : j + 1 ≤ i₀
        · rw [if_neg (by omega : ¬j < r), if_neg c3, if_pos (by omega : j ≤ i₀),
            if_neg c1, if_neg c2, if_pos c4]
          exact hhole (j - 1) j (by omega) (by omega) (by omega) (by omega)
        · by_cases c5 : j = i₀
          · rw [if_neg (by omega : ¬j < r), if_neg c3, if_pos (by omega : j ≤ i₀),
              if_neg c1, if_neg c2, if_neg c4]
            exact hhole (j - 1) (j + 1) (by omega) (by omega) (by omega) (by omega)
          · rw [if_neg (by omega : ¬j < r), if_neg c3, if_neg (by omega : ¬j ≤ i₀),
              if_neg c1, if_neg c2, if_neg c4]
            exact hhole j (j + 1) (by omega) (by omega) (by omega) (by omega)

/-- Sortedness of the rank view after the right repair pass (or after no pass at
all, with `r = i₀`): the view was sorted with a hole at rank `i₀`, the hole
moved up to rank `r ≥ i₀`, the left neighbour of the entry rank was already not
greater than the new value, every rank shifted over carries a value strictly
smaller than the new value, and the pass stopped below a right neighbour not
smaller than the new value. -/
theorem sorted_after_right (N o i₀ r : Nat) (data1 : List Int) (sm smR : List Nat)
    (hir : i₀ ≤ r) (hi₀N : i₀ < N) (hrN : r ≤ N - 1)
    (hchar : ∀ j, j < N → smR.getD j 0 =
      if j < i₀ then sm.getD j 0
      else if j < r then sm.getD (j + 1) 0
      else if j = r then o
      else sm.getD j 0)
    (hhole : ∀ x y, x ≤ y → y < N → x ≠ i₀ → y ≠ i₀ →
      data1.getD (sm.getD x 0) 0 ≤ data1.getD (sm.getD y 0) 0)
    (hbreakL : 0 < i₀ → data1.getD (sm.getD (i₀ - 1) 0) 0 ≤ data1.getD o 0)
    (hstrict : ∀ x, i₀ < x → x ≤ r → data1.getD (sm.getD x 0) 0 < data1.getD o 0)
    (hstop : r + 1 < N → data1.getD o 0 ≤ data1.getD (sm.getD (r + 1) 0) 0) :
    ∀ j, j + 1 < N → data1.getD (smR.getD j 0) 0 ≤ data1.getD (smR.getD (j + 1) 0) 0 := by
  intro j hj
  rw [hchar j (by omega), hchar (j + 1) (by omega)]
  by_cases c1 : j + 1 < i₀
  · rw [if_pos (by omega : j < i₀), if_pos c1]
    exact hhole j (j + 1) (by omega) (by omega) (by omega) (by omega)
  · by_cases c2 : j + 1 = i₀
    · rw [if_pos (by omega : j < i₀), if_neg c1]
      by_cases c2a : i₀ < r
      · rw [if_pos (by omega : j + 1 < r)]
        exact hhole j (j + 1 + 1) (by omega) (by omega) (by omega) (by omega)
      · rw [if_neg (by omega : ¬j + 1 < r), if_pos (by omega : j + 1 = r)]
        have h := hbreakL (by omega)
        have h1 : i₀ - 1 = j := by omega
        rw [h1] at h
        exact h
    · by_cases c3 : j + 1 < r
      · rw [if_neg (by omega : ¬j < i₀), if_pos (by omega : j < r), if_neg c1, if_pos c3]
        exact hhole (j + 1) (j + 1 + 1) (by omega) (by omega) (by omega) (by omega)
      · by_cases c4 : j + 1 = r
        · rw [if_neg (by omega : ¬j < i₀), if_pos (by omega : j < r), if_neg c1,
            if_neg c3, if_pos c4]
          exact le_of_lt (hstrict (j + 1) (by omega) (by omega))
        · by_cases c5 : j = r
          · rw [if_neg (by omega : ¬j < i₀), if_neg (by omega : ¬j < r), if_pos c5,
              if_neg c1, if_neg c3, if_neg c4]
            have h := hstop (by omega)
            have h1 : r + 1 = j + 1 := by omega
            rw [h1] at h
            exact h
          · rw [if_neg (by omega : ¬j < i₀), if_neg (by omega : ¬j < r), if_neg c5,
              if_neg c1, if_neg c3, if_neg c4]
            exact hhole j (j + 1) (by omega) (by omega) (by omega) (by omega)

/-- Assembly of the `insert` postcondition when the hole ends at rank
`r2 ≥ lm[o]` (right repair pass, possibly trivial).  `smB`/`lmB` are the maps
actually handed to the right pass (pointwise equal to the originals). -/
theorem insert_finish_right
    (N mdp o : Nat) (dat : List Int) (sm lm : List Nat) (ts v : Int)
    (hN3 : 3 ≤ N) (hN255 : N ≤ 255) (hmed : mdp = N / 2)
    (hdata : dat.length = N) (hold : o < N)
    (hok : MapsOk N sm lm)
    (hsorted : ∀ r, r + 1 < N → dat.getD (sm.getD r 0) 0 ≤ dat.getD (sm.getD (r + 1) 0) 0)
    (hsum : ts = dat.sum)
    (smB lmB SM2 LM2 : List Nat) (r2 : Nat)
    (hB1 : ∀ j, j < N → smB.getD j 0 = sm.getD j 0)
    (hB2 : ∀ k, k < N → lmB.getD k 0 = lm.getD k 0)
    (hok2 : MapsOk N SM2 LM2)
    (hir : lm.getD o 0 ≤ r2) (hr2N : r2 ≤ N - 1)
    (hchar1 : ∀ j, j < N → SM2.getD j 0 =
      if j < lm.getD o 0 then smB.getD j 0
      else if j < r2 then smB.getD (j + 1) 0
      else if j = r2 then o else smB.getD j 0)
    (hchar2 : ∀ k, k < N → k ≠ o → LM2.getD k 0 =
      if lm.getD o 0 < lmB.getD k 0 ∧ lmB.getD k 0 ≤ r2 then lmB.getD k 0 - 1
      else lmB.getD k 0)
    (hlmo2 : LM2.getD o 0 = r2)
    (hstrict : ∀ k, k < N → k ≠ o → lm.getD o 0 < lmB.getD k 0 → lmB.getD k 0 ≤ r2 →
      (dat.set o v).getD k 0 < (dat.set o v).getD o 0)
    (hstop : r2 + 1 < N →
      (dat.set o v).getD o 0 ≤ (dat.set o v).getD (smB.getD (r2 + 1) 0) 0)
    (hbreak : 0 < lm.getD o 0 →
      (dat.set o v).getD (sm.getD (lm.getD o 0 - 1) 0) 0 ≤ (dat.set o v).getD o 0)
    (hins : MedianFilter.insert ⟨N, mdp, dat, sm, lm, o, ts⟩ v =
      (⟨N, mdp, dat.set o v, SM2, LM2, if o + 1 = N then 0 else o + 1,
        ts + v - dat.getD o 0⟩,
       (dat.set o v).getD (SM2.getD mdp 0) 0)) :
    Valid (MedianFilter.insert ⟨N, mdp, dat, sm, lm, o, ts⟩ v).1 ∧
    (MedianFilter.insert ⟨N, mdp, dat, sm, lm, o, ts⟩ v).1.data = dat.set o v ∧
    ∃ r, r < N ∧
      (MedianFilter.insert ⟨N, mdp, dat, sm, lm, o, ts⟩ v).1.locationMap.getD o 0 = r ∧
      (∀ k, k < N → k ≠ o →
        (MedianFilter.insert ⟨N, mdp, dat, sm, lm, o, ts⟩ v).1.locationMap.getD k 0 =
          if r ≤ lm.getD k 0 ∧ lm.getD k 0 < lm.getD o 0 then lm.getD k 0 + 1
          else if lm.getD o 0 < lm.getD k 0 ∧ lm.getD k 0 ≤ r then lm.getD k 0 - 1
          else lm.getD k 0) ∧
      (∀ k, k < N → k ≠ o →
        (r ≤ lm.getD k 0 → lm.getD k 0 < lm.getD o 0 → v < dat.getD k 0) ∧
        (lm.getD o 0 < lm.getD k 0 → lm.getD k 0 ≤ r → dat.getD k 0 < v)) := by
  have hi₀N : lm.getD o 0 < N := hok.hlmlt o hold
  have hd1len : (dat.set o v).length = N := by rw [List.length_set, hdata]
  have hd1o : (dat.set o v).getD o 0 = v :=
    getD_set_self dat o v 0 (by rw [hdata]; exact hold)
  have hd1k : ∀ k, k ≠ o → (dat.set o v).getD k 0 = dat.getD k 0 :=
    fun k hk => getD_set_ne dat v 0 (fun h => hk h.symm)
  have hslotne : ∀ x, x < N → x ≠ lm.getD o 0 → sm.getD x 0 ≠ o := by
    intro x hx hxi h
    have h2 := hok.hls x hx
    rw [h] at h2
    exact hxi h2.symm
  have hhole : ∀ x y, x ≤ y → y < N → x ≠ lm.getD o 0 → y ≠ lm.getD o 0 →
      (dat.set o v).getD (sm.getD x 0) 0 ≤ (dat.set o v).getD (sm.getD y 0) 0 := by
    intro x y hxy hyN hx hy
    rw [hd1k _ (hslotne x (by omega) hx), hd1k _ (hslotne y hyN hy)]
    exact mono_of_adjacent hsorted x y hxy hyN
  have hchar1' : ∀ j, j < N → SM2.getD j 0 =
      if j < lm.getD o 0 then sm.getD j 0
      else if j < r2 then sm.getD (j + 1) 0
      else if j = r2 then o else sm.getD j 0 := by
    intro j hj
    rw [hchar1 j hj]
    by_cases c1 : j < lm.getD o 0
    · rw [if_pos c1, if_pos c1, hB1 j hj]
    · by_cases c2 : j < r2
      · rw [if_neg c1, if_neg c1, if_pos c2, if_pos c2, hB1 (j + 1) (by omega)]
      · by_cases c3 : j = r2
        · rw [if_neg c1, if_neg c1, if_neg c2, if_neg c2, if_pos c3, if_pos c3]
        · rw [if_neg c1, if_neg c1, if_neg c2, if_neg c2, if_neg c3, if_neg c3, hB1 j hj]
  have hchar2' : ∀ k, k < N → k ≠ o → LM2.getD k 0 =
      if lm.getD o 0 < lm.getD k 0 ∧ lm.getD k 0 ≤ r2 then lm.getD k 0 - 1
      else lm.getD k 0 := by
    intro k hk hko
    rw [hchar2 k hk hko, hB2 k hk]
  have hstrict' : ∀ k, k < N → k ≠ o → lm.getD o 0 < lm.getD k 0 → lm.getD k 0 ≤ r2 →
      (dat.set o v).getD k 0 < (dat.set o v).getD o 0 := by
    intro k hk hko h1 h2
    exact hstrict k hk hko (by rw [hB2 k hk]; exact h1) (by rw [hB2 k hk]; exact h2)
  have hstop' : r2 + 1 < N →
      (dat.set o v).getD o 0 ≤ (dat.set o v).getD (sm.getD (r2 + 1) 0) 0 := by
    intro h
    have h2 := hstop h
    rw [hB1 (r2 + 1) (by omega)] at h2
    exact h2
  have hstrictRank : ∀ x, lm.getD o 0 < x → x ≤ r2 →
      (dat.set o v).getD (sm.getD x 0) 0 < (dat.set o v).getD o 0 := by
    intro x h1 h2
    have hxN : x < N := by omega
    exact hstrict' (sm.getD x 0) (hok.hsmlt x hxN) (hslotne x hxN (by omega))
      (by rw [hok.hls x hxN]; exact h1) (by rw [hok.hls x hxN]; exact h2)
  have hsorted2 : ∀ j, j + 1 < N →
      (dat.set o v).getD (SM2.getD j 0) 0 ≤ (dat.set o v).getD (SM2.getD (j + 1) 0) 0 :=
    sorted_after_right N o (lm.getD o 0) r2 (dat.set o v) sm SM2 hir hi₀N hr2N hchar1'
      hhole hbreak hstrictRank hstop'
  rw [hins]
  refine ⟨⟨hN3, hN255, hmed, hd1len, hok2.hsm, hok2.hlm,
    by dsimp only; split_ifs <;> omega,
    hok2.hsmlt, hok2.hlmlt, hok2.hls, hok2.hsl, hsorted2,
    by rw [hsum, sum_set_int dat o v (by rw [hdata]; exact hold)]⟩,
    rfl, r2, by omega, hlmo2, ?_, ?_⟩
  · intro k hk hko
    rw [hchar2' k hk hko,
      if_neg (by omega : ¬(r2 ≤ lm.getD k 0 ∧ lm.getD k 0 < lm.getD o 0))]
  · intro k hk hko
    constructor
    · intro h1 h2
      omega
    · intro h1 h2
      have h3 := hstrict' k hk hko h1 h2
      rw [hd1k k hko, hd1o] at h3
      exact h3

/-- Assembly of the `insert` postcondition when the hole ends at rank
`r2 < lm[o]` (left repair pass moved data; no right pass). -/
theorem insert_finish_left
    (N mdp o : Nat) (dat : List Int) (sm lm : List Nat) (ts v : Int)
    (hN3 : 3 ≤ N) (hN255 : N ≤ 255) (hmed : mdp = N / 2)
    (hdata : dat.length = N) (hold : o < N)
    (hok : MapsOk N sm lm)
    (hsorted : ∀ r, r + 1 < N → dat.getD (sm.getD r 0) 0 ≤ dat.getD (sm.getD (r + 1) 0) 0)
    (hsum : ts = dat.sum)
    (SM2 LM2 : List Nat) (r2 : Nat)
    (hok2 : MapsOk N SM2 LM2)
    (hrlt : r2 < lm.getD o 0)
    (hchar1 : ∀ j, j < N → SM2.getD j 0 =
      if j < r2 then sm.getD j 0
      else if j = r2 then o
      else if j ≤ lm.getD o 0 then sm.getD (j - 1) 0
      else sm.getD j 0)
    (hchar2 : ∀ k, k < N → k ≠ o → LM2.getD k 0 =
      if r2 ≤ lm.getD k 0 ∧ lm.getD k 0 < lm.getD o 0 then lm.getD k 0 + 1
      else lm.getD k 0)
    (hlmo2 : LM2.getD o 0 = r2)
    (hstrict : ∀ k, k < N → k ≠ o → r2 ≤ lm.getD k 0 → lm.getD k 0 < lm.getD o 0 →
      (dat.set o v).getD o 0 < (dat.set o v).getD k 0)
    (hstop : 0 < r2 →
      (dat.set o v).getD (sm.getD (r2 - 1) 0) 0 ≤ (dat.set o v).getD o 0)
    (hins : MedianFilter.insert ⟨N, mdp, dat, sm, lm, o, ts⟩ v =
      (⟨N, mdp, dat.set o v, SM2, LM2, if o + 1 = N then 0 else o + 1,
        ts + v - dat.getD o 0⟩,
       (dat.set o v).getD (SM2.getD mdp 0) 0)) :
    Valid (MedianFilter.insert ⟨N, mdp, dat, sm, lm, o, ts⟩ v).1 ∧
    (MedianFilter.insert ⟨N, mdp, dat, sm, lm, o, ts⟩ v).1.data = dat.set o v ∧
    ∃ r, r < N ∧
      (MedianFilter.insert ⟨N, mdp, dat, sm, lm, o, ts⟩ v).1.locationMap.getD o 0 = r ∧
      (∀ k, k < N → k ≠ o →
        (MedianFilter.insert ⟨N, mdp, dat, sm, lm, o, ts⟩ v).1.locationMap.getD k 0 =
          if r ≤ lm.getD k 0 ∧ lm.getD k 0 < lm.getD o 0 then lm.getD k 0 + 1
          else if lm.getD o 0 < lm.getD k 0 ∧ lm.getD k 0 ≤ r then lm.getD k 0 - 1
          else lm.getD k 0) ∧
      (∀ k, k < N → k ≠ o →
        (r ≤ lm.getD k 0 → lm.getD k 0 < lm.getD o 0 → v < dat.getD k 0) ∧
        (lm.getD o 0 < lm.getD k 0 → lm.getD k 0 ≤ r → dat.getD k 0 < v)) := by
  have hi₀N : lm.getD o 0 < N := hok.hlmlt o hold
  have hd1len : (dat.set o v).length = N := by rw [List.length_set, hdata]
  have hd1o : (dat.set o v).getD o 0 = v :=
    getD_set_self dat o v 0 (by rw [hdata]; exact hold)
  have hd1k : ∀ k, k ≠ o → (dat.set o v).getD k 0 = dat.getD k 0 :=
    fun k hk => getD_set_ne dat v 0 (fun h => hk h.symm)
  have hslotne : ∀ x, x < N → x ≠ lm.getD o 0 → sm.getD x 0 ≠ o := by
    intro x hx hxi h
    have h2 := hok.hls x hx
    rw [h] at h2
    exact hxi h2.symm
  have hhole : ∀ x y, x ≤ y → y < N → x ≠ lm.getD o 0 → y ≠ lm.getD o 0 →
      (dat.set o v).getD (sm.getD x 0) 0 ≤ (dat.set o v).getD (sm.getD y 0) 0 := by
    intro x y hxy hyN hx hy
    rw [hd1k _ (hslotne x (by omega) hx), hd1k _ (hslotne y hyN hy)]
    exact mono_of_adjacent hsorted x y hxy hyN
  have hstrictRank : ∀ x, r2 ≤ x → x < lm.getD o 0 →
      (dat.set o v).getD o 0 < (dat.set o v).getD (sm.getD x 0) 0 := by
    intro x h1 h2
    have hxN : x < N := by omega
    exact hstrict (sm.getD x 0) (hok.hsmlt x hxN) (hslotne x hxN (by omega))
      (by rw [hok.hls x hxN]; exact h1) (by rw [hok.hls x hxN]; exact h2)
  have hsorted2 : ∀ j, j + 1 < N →
      (dat.set o v).getD (SM2.getD j 0) 0 ≤ (dat.set o v).getD (SM2.getD (j + 1) 0) 0 :=
    sorted_after_left N o (lm.getD o 0) r2 (dat.set o v) sm SM2 hrlt hi₀N hchar1
      hhole hstop hstrictRank
  rw [hins]
  refine ⟨⟨hN3, hN255, hmed, hd1len, hok2.hsm, hok2.hlm,
    by dsimp only; split_ifs <;> omega,
    hok2.hsmlt, hok2.hlmlt, hok2.hls, hok2.hsl, hsorted2,
    by rw [hsum, sum_set_int dat o v (by rw [hdata]; exact hold)]⟩,
    rfl, r2, by omega, hlmo2, ?_, ?_⟩
  · intro k hk hko
    rw [hchar2 k hk hko]
    by_cases hw : r2 ≤ lm.getD k 0 ∧ lm.getD k 0 < lm.getD o 0
    · rw [if_pos hw, if_pos hw]
    · rw [if_neg hw, if_neg hw,
        if_neg (by omega : ¬(lm.getD o 0 < lm.getD k 0 ∧ lm.getD k 0 ≤ r2))]
  · intro k hk hko
    constructor
    · intro h1 h2
      have h3 := hstrict k hk hko h1 h2
      rw [hd1k k hko, hd1o] at h3
      exact h3
    · intro h1 h2
      omega

/-- Master lemma for `MedianFilter::in`: validity is preserved, the data array
is the ring-slot overwrite, and the rank maps change exactly by moving the
overwritten slot `o` from its old rank `lm[o]` to some final rank `r`,
shifting the ranks in between by one; every rank shifted over carries a value
strictly greater (when the value moved down) or strictly smaller (when it
moved up) than the inserted value. -/
theorem insert_spec (f : MedianFilter) (v : Int) (hf : Valid f) :
    Valid (f.insert v).1 ∧
    (f.insert v).1.data = f.data.set f.oldestDataPoint v ∧
    ∃ r, r < f.medFilterWin ∧
      (f.insert v).1.locationMap.getD f.oldestDataPoint 0 = r ∧
      (∀ k, k < f.medFilterWin → k ≠ f.oldestDataPoint →
        (f.insert v).1.locationMap.getD k 0 =
          if r ≤ f.locationMap.getD k 0 ∧
              f.locationMap.getD k 0 < f.locationMap.getD f.oldestDataPoint 0 then
            f.locationMap.getD k 0 + 1
          else if f.locationMap.getD f.oldestDataPoint 0 < f.locationMap.getD k 0 ∧
              f.locationMap.getD k 0 ≤ r then
            f.locationMap.getD k 0 - 1
          else f.locationMap.getD k 0) ∧
      (∀ k, k < f.medFilterWin → k ≠ f.oldestDataPoint →
        (r ≤ f.locationMap.getD k 0 →
          f.locationMap.getD k 0 < f.locationMap.getD f.oldestDataPoint 0 →
          v < f.data.getD k 0) ∧
        (f.locationMap.getD f.oldestDataPoint 0 < f.locationMap.getD k 0 →
          f.locationMap.getD k 0 ≤ r →
          f.data.getD k 0 < v)) := by
  obtain ⟨N, mdp, dat, sm, lm, o, ts⟩ := f
  obtain ⟨hN3, hN255, hmed, hdata, hsmlen, hlmlen, hold, hsmlt, hlmlt, hls, hsl,
    hsorted, hsum⟩ := hf
  dsimp only at hN3 hN255 hmed hdata hsmlen hlmlen hold hsmlt hlmlt hls hsl hsorted hsum ⊢
  have hok : MapsOk N sm lm := ⟨hsmlen, hlmlen, hsmlt, hlmlt, hls, hsl⟩
  have hi₀N : lm.getD o 0 < N := hlmlt o hold
  have hsmi₀ : sm.getD (lm.getD o 0) 0 = o := hsl o hold
  by_cases hguard : 0 < lm.getD o 0
  · obtain ⟨r, hr, hokL, hbL, hsmcharL, hlmcharL, hlmoL, hstrictL, hstopL⟩ :=
      sortLeft_spec (dat.set o v) N o hold (lm.getD o 0) sm lm false hok rfl
    by_cases hmoved : r < lm.getD o 0
    · -- the left pass moved data: no right pass
      have hbtrue : (sortLeft o (dat.set o v) (lm.getD o 0) sm lm false).2.2 = true := by
        rw [hbL, Bool.false_or]
        exact decide_eq_true hmoved
      have hins : MedianFilter.insert ⟨N, mdp, dat, sm, lm, o, ts⟩ v =
          (⟨N, mdp, dat.set o v,
            (sortLeft o (dat.set o v) (lm.getD o 0) sm lm false).1,
            (sortLeft o (dat.set o v) (lm.getD o 0) sm lm false).2.1,
            if o + 1 = N then 0 else o + 1, ts + v - dat.getD o 0⟩,
          (dat.set o v).getD
            ((sortLeft o (dat.set o v) (lm.getD o 0) sm lm false).1.getD mdp 0) 0) := by
        simp only [MedianFilter.insert]
        rw [if_pos hguard, if_neg (by intro hcon; rw [hbtrue] at hcon; simp at hcon)]
      exact insert_finish_left N mdp o dat sm lm ts v hN3 hN255 hmed hdata hold hok hsorted
        hsum (sortLeft o (dat.set o v) (lm.getD o 0) sm lm false).1
        (sortLeft o (dat.set o v) (lm.getD o 0) sm lm false).2.1
        r hokL hmoved hsmcharL hlmcharL hlmoL hstrictL hstopL hins
    · -- the left pass did not move data
      have hreq : r = lm.getD o 0 := by omega
      have hbfalse : (sortLeft o (dat.set o v) (lm.getD o 0) sm lm false).2.2 = false := by
        rw [hbL, Bool.false_or]
        exact decide_eq_false hmoved
      have hL1 : ∀ j, j < N →
          (sortLeft o (dat.set o v) (lm.getD o 0) sm lm false).1.getD j 0 = sm.getD j 0 := by
        intro j hj
        rw [hsmcharL j hj]
        by_cases c1 : j < r
        · rw [if_pos c1]
        · by_cases c2 : j = r
          · rw [if_neg c1, if_pos c2, c2, hreq, hsmi₀]
          · rw [if_neg c1, if_neg c2, if_neg (by omega : ¬j ≤ lm.getD o 0)]
      have hL2 : ∀ k, k < N →
          (sortLeft o (dat.set o v) (lm.getD o 0) sm lm false).2.1.getD k 0 =
            lm.getD k 0 := by
        intro k hk
        by_cases hko : k = o
        · rw [hko, hlmoL, hreq]
        · rw [hlmcharL k hk hko,
            if_neg (by omega : ¬(r ≤ lm.getD k 0 ∧ lm.getD k 0 < lm.getD o 0))]
      have hbreak : 0 < lm.getD o 0 →
          (dat.set o v).getD (sm.getD (lm.getD o 0 - 1) 0) 0 ≤ (dat.set o v).getD o 0 := by
        intro h
        have h2 := hstopL (by omega)
        rw [hreq] at h2
        exact h2
      by_cases hre : lm.getD o 0 < N - 1
      · -- the right pass runs on the (unchanged) maps
        obtain ⟨r2, hir2, hr2N, hokR, hsmcharR, hlmcharR, hlmoR, hstrictR, hstopR⟩ :=
          sortRight_spec (dat.set o v) N o hold
            (N - 1 - (sortLeft o (dat.set o v) (lm.getD o 0) sm lm false).2.1.getD o 0)
            ((sortLeft o (dat.set o v) (lm.getD o 0) sm lm false).2.1.getD o 0)
            (sortLeft o (dat.set o v) (lm.getD o 0) sm lm false).1
            (sortLeft o (dat.set o v) (lm.getD o 0) sm lm false).2.1
            hokL rfl (by rw [hlmoL, hreq]; omega)
        rw [hlmoL, hreq] at hir2 hokR hsmcharR hlmcharR hlmoR hstrictR
        have hins : MedianFilter.insert ⟨N, mdp, dat, sm, lm, o, ts⟩ v =
            (⟨N, mdp, dat.set o v,
              (sortRight o (dat.set o v) (N - 1 - lm.getD o 0) (lm.getD o 0)
                (sortLeft o (dat.set o v) (lm.getD o 0) sm lm false).1
                (sortLeft o (dat.set o v) (lm.getD o 0) sm lm false).2.1).1,
              (sortRight o (dat.set o v) (N - 1 - lm.getD o 0) (lm.getD o 0)
                (sortLeft o (dat.set o v) (lm.getD o 0) sm lm false).1
                (sortLeft o (dat.set o v) (lm.getD o 0) sm lm false).2.1).2,
              if o + 1 = N then 0 else o + 1, ts + v - dat.getD o 0⟩,
            (dat.set o v).getD
              ((sortRight o (dat.set o v) (N - 1 - lm.getD o 0) (lm.getD o 0)
                (sortLeft o (dat.set o v) (lm.getD o 0) sm lm false).1
                (sortLeft o (dat.set o v) (lm.getD o 0) sm lm false).2.1).1.getD mdp 0) 0) := by
          simp only [MedianFilter.insert]
          rw [if_pos hguard, if_pos ⟨hbfalse, by rw [hlmoL, hreq]; exact hre⟩, hlmoL, hreq]
        exact insert_finish_right N mdp o dat sm lm ts v hN3 hN255 hmed hdata hold hok
          hsorted hsum
          (sortLeft o (dat.set o v) (lm.getD o 0) sm lm false).1
          (sortLeft o (dat.set o v) (lm.getD o 0) sm lm false).2.1
          (sortRight o (dat.set o v) (N - 1 - lm.getD o 0) (lm.getD o 0)
            (sortLeft o (dat.set o v) (lm.getD o 0) sm lm false).1
            (sortLeft o (dat.set o v) (lm.getD o 0) sm lm false).2.1).1
          (sortRight o (dat.set o v) (N - 1 - lm.getD o 0) (lm.getD o 0)
            (sortLeft o (dat.set o v) (lm.getD o 0) sm lm false).1
            (sortLeft o (dat.set o v) (lm.getD o 0) sm lm false).2.1).2
          r2 hL1 hL2 hokR hir2 hr2N hsmcharR hlmcharR hlmoR hstrictR hstopR hbreak hins
      · -- neither pass moved anything: the hole already sits at the right edge
        have hins : MedianFilter.insert ⟨N, mdp, dat, sm, lm, o, ts⟩ v =
            (⟨N, mdp, dat.set o v,
              (sortLeft o (dat.set o v) (lm.getD o 0) sm lm false).1,
              (sortLeft o (dat.set o v) (lm.getD o 0) sm lm false).2.1,
              if o + 1 = N then 0 else o + 1, ts + v - dat.getD o 0⟩,
            (dat.set o v).getD
              ((sortLeft o (dat.set o v) (lm.getD o 0) sm lm false).1.getD mdp 0) 0) := by
          simp only [MedianFilter.insert]
          rw [if_pos hguard,
            if_neg (by intro hcon; rw [hlmoL, hreq] at hcon; exact hre hcon.2)]
        refine insert_finish_right N mdp o dat sm lm ts v hN3 hN255 hmed hdata hold hok
          hsorted hsum
          (sortLeft o (dat.set o v) (lm.getD o 0) sm lm false).1
          (sortLeft o (dat.set o v) (lm.getD o 0) sm lm false).2.1
          (sortLeft o (dat.set o v) (lm.getD o 0) sm lm false).1
          (sortLeft o (dat.set o v) (lm.getD o 0) sm lm false).2.1
          (lm.getD o 0) hL1 hL2 hokL (le_refl _) (by omega) ?_ ?_ ?_ ?_ ?_ hbreak hins
        · intro j hj
          by_cases c1 : j < lm.getD o 0
          · rw [if_pos c1]
          · by_cases c2 : j = lm.getD o 0
            · rw [if_neg c1, if_neg c1, if_pos c2, hL1 j hj, c2, hsmi₀]
            · omega
        · intro k hk hko
          rw [if_neg (by omega : ¬(lm.getD o 0 <
            (sortLeft o (dat.set o v) (lm.getD o 0) sm lm false).2.1.getD k 0 ∧
            (sortLeft o (dat.set o v) (lm.getD o 0) sm lm false).2.1.getD k 0 ≤
              lm.getD o 0))]
        · rw [hlmoL, hreq]
        · intro k hk hko h1 h2
          omega
        · intro h
          omega
  · -- the overwritten slot starts at rank 0: only the right pass can run
    have hi₀0 : lm.getD o 0 = 0 := by omega
    obtain ⟨r2, hir2, hr2N, hokR, hsmcharR, hlmcharR, hlmoR, hstrictR, hstopR⟩ :=
      sortRight_spec (dat.set o v) N o hold (N - 1 - lm.getD o 0) (lm.getD o 0) sm lm hok
        rfl (by omega)
    have hins : MedianFilter.insert ⟨N, mdp, dat, sm, lm, o, ts⟩ v =
        (⟨N, mdp, dat.set o v,
          (sortRight o (dat.set o v) (N - 1 - lm.getD o 0) (lm.getD o 0) sm lm).1,
          (sortRight o (dat.set o v) (N - 1 - lm.getD o 0) (lm.getD o 0) sm lm).2,
          if o + 1 = N then 0 else o + 1, ts + v - dat.getD o 0⟩,
        (dat.set o v).getD
          ((sortRight o (dat.set o v) (N - 1 - lm.getD o 0) (lm.getD o 0) sm lm).1.getD
            mdp 0) 0) := by
      simp only [MedianFilter.insert]
      rw [if_neg hguard, if_pos ⟨rfl, show lm.getD o 0 < N - 1 by omega⟩]
    have hbreak : 0 < lm.getD o 0 →
        (dat.set o v).getD (sm.getD (lm.getD o 0 - 1) 0) 0 ≤ (dat.set o v).getD o 0 := by
      intro h
      omega
    exact insert_finish_right N mdp o dat sm lm ts v hN3 hN255 hmed hdata hold hok
      hsorted hsum sm lm
      (sortRight o (dat.set o v) (N - 1 - lm.getD o 0) (lm.getD o 0) sm lm).1
      (sortRight o (dat.set o v) (N - 1 - lm.getD o 0) (lm.getD o 0) sm lm).2
      r2 (fun j _ => rfl) (fun k _ => rfl) hokR hir2 hr2N hsmcharR hlmcharR hlmoR
      hstrictR hstopR hbreak hins

/-! ### Reachable states and the sorted rank view -/

theorem valid_foldl (vs : List Int) : ∀ (g : MedianFilter), Valid g →
    Valid (vs.foldl (fun f v => (MedianFilter.insert f v).1) g) := by
  induction vs with
  | nil => intro g hg; exact hg
  | cons v vs ih => intro g hg; exact ih _ (insert_spec g v hg).1

theorem valid_run (size seed : Int) (vs : List Int) : Valid (runFilter size seed vs) :=
  valid_foldl vs _ (valid_make size seed)

theorem list_eq_map_getD (l : List Int) :
    l = (List.range l.length).map (fun k => l.getD k 0) := by
  apply List.ext_getElem
  · simp
  · intro i h1 h2
    simp only [List.getElem_map, List.getElem_range]
    rw [getD_eq_elem l i 0 h1]

theorem rankView_length (f : MedianFilter) : (rankView f).length = f.medFilterWin := by
  simp [rankView]

theorem rankView_getD (f : MedianFilter) (j : Nat) (hj : j < f.medFilterWin) :
    (rankView f).getD j 0 = f.data.getD (f.sizeMap.getD j 0) 0 := by
  rw [rankView, getD_eq_elem _ _ _ (by simpa using hj)]
  simp [hj]

theorem rankView_perm (f : MedianFilter) (hf : Valid f) : (rankView f).Perm f.data := by
  have hnd : ((List.range f.medFilterWin).map (fun r => f.sizeMap.getD r 0)).Nodup := by
    refine List.Nodup.map_on ?_ (List.nodup_range _)
    intro x hx y hy hxy
    rw [List.mem_range] at hx hy
    have h1 := hf.hls x hx
    have h2 := hf.hls y hy
    rw [hxy] at h1
    exact h1.symm.trans h2
  have hidx : ((List.range f.medFilterWin).map (fun r => f.sizeMap.getD r 0)).Perm
      (List.range f.medFilterWin) := by
    rw [List.perm_ext_iff_of_nodup hnd (List.nodup_range _)]
    intro a
    constructor
    · intro ha
      obtain ⟨r, hr, rfl⟩ := List.mem_map.mp ha
      rw [List.mem_range] at hr ⊢
      exact hf.hsmlt r hr
    · intro ha
      rw [List.mem_range] at ha
      refine List.mem_map.mpr ⟨f.locationMap.getD a 0, ?_, hf.hsl a ha⟩
      rw [List.mem_range]
      exact hf.hlmlt a ha
  have hview : rankView f =
      ((List.range f.medFilterWin).map (fun r => f.sizeMap.getD r 0)).map
        (fun k => f.data.getD k 0) := by
    rw [List.map_map]
    rfl
  have heq : (List.range f.medFilterWin).map (fun k => f.data.getD k 0) = f.data := by
    rw [← hf.hdata]
    exact (list_eq_map_getD f.data).symm
  have hperm2 : ((List.range f.medFilterWin).map (fun k => f.data.getD k 0)).Perm f.data := by
    rw [heq]
  rw [hview]
  exact (hidx.map (fun k => f.data.getD k 0)).trans hperm2

theorem rankView_sorted (f : MedianFilter) (hf : Valid f) :
    List.Sorted (fun a b : Int => a ≤ b) (rankView f) := by
  refine List.pairwise_iff_getElem.mpr ?_
  intro i j hi hj hij
  rw [rankView_length] at hi hj
  simp only [rankView, List.getElem_map, List.getElem_range]
  exact mono_of_adjacent hf.hsorted i j (le_of_lt hij) hj

theorem rankView_eq_sortedWindow (f : MedianFilter) (hf : Valid f) :
    rankView f = sortedWindow f :=
  List.eq_of_perm_of_sorted
    ((rankView_perm f hf).trans (List.perm_insertionSort _ f.data).symm)
    (rankView_sorted f hf)
    (List.sorted_insertionSort _ f.data)

theorem sortedWindow_length (f : MedianFilter) (hf : Valid f) :
    (sortedWindow f).length = f.medFilterWin := by
  rw [sortedWindow, (List.perm_insertionSort (fun a b : Int => a ≤ b) f.data).length_eq,
    hf.hdata]

/-- The median, min and max accessors all read the from-scratch sorted window at
their documented ranks, and min/max really are the window extremes. -/
theorem median_min_max (g : MedianFilter) (hg : Valid g) :
    g.out = (sortedWindow g).getD (g.medFilterWin / 2) 0 ∧
    g.getMin = (sortedWindow g).getD 0 0 ∧
    g.getMax = (sortedWindow g).getD (g.medFilterWin - 1) 0 ∧
    g.getMin ∈ g.data ∧ (∀ x ∈ g.data, g.getMin ≤ x) ∧
    g.getMax ∈ g.data ∧ (∀ x ∈ g.data, x ≤ g.getMax) := by
  have hN := hg.hN3
  have hlen := sortedWindow_length g hg
  have hperm : (sortedWindow g).Perm g.data := List.perm_insertionSort _ g.data
  have hsorted : List.Sorted (fun a b : Int => a ≤ b) (sortedWindow g) :=
    List.sorted_insertionSort (fun a b : Int => a ≤ b) g.data
  have hmid : g.medFilterWin / 2 < g.medFilterWin := Nat.div_lt_self (by omega) (by omega)
  have hout : g.out = (sortedWindow g).getD (g.medFilterWin / 2) 0 := by
    rw [MedianFilter.out, hg.hmed, ← rankView_getD g _ hmid, rankView_eq_sortedWindow g hg]
  have hmin : g.getMin = (sortedWindow g).getD 0 0 := by
    rw [MedianFilter.getMin, ← rankView_getD g 0 (by omega), rankView_eq_sortedWindow g hg]
  have hmax : g.getMax = (sortedWindow g).getD (g.medFilterWin - 1) 0 := by
    rw [MedianFilter.getMax, ← rankView_getD g _ (by omega : g.medFilterWin - 1 < g.medFilterWin),
      rankView_eq_sortedWindow g hg]
  have hminmem : (sortedWindow g).getD 0 0 ∈ g.data := by
    rw [getD_eq_elem _ _ _ (by omega)]
    exact hperm.mem_iff.mp (List.getElem_mem _)
  have hmaxmem : (sortedWindow g).getD (g.medFilterWin - 1) 0 ∈ g.data := by
    rw [getD_eq_elem _ _ _ (by omega)]
    exact hperm.mem_iff.mp (List.getElem_mem _)
  have hminle : ∀ x ∈ g.data, (sortedWindow g).getD 0 0 ≤ x := by
    intro x hx
    obtain ⟨j, hj, rfl⟩ := List.getElem_of_mem (hperm.mem_iff.mpr hx)
    rcases Nat.eq_zero_or_pos j with rfl | hj0
    · rw [getD_eq_elem _ _ _ (by omega)]
    · rw [getD_eq_elem _ _ _ (by omega)]
      exact (List.pairwise_iff_getElem.mp hsorted) 0 j (by omega) hj hj0
  have hmaxge : ∀ x ∈ g.data, x ≤ (sortedWindow g).getD (g.medFilterWin - 1) 0 := by
    intro x hx
    obtain ⟨j, hj, rfl⟩ := List.getElem_of_mem (hperm.mem_iff.mpr hx)
    rcases Nat.lt_or_ge j (g.medFilterWin - 1) with hj1 | hj1
    · rw [getD_eq_elem _ _ _ (by omega)]
      exact (List.pairwise_iff_getElem.mp hsorted) j (g.medFilterWin - 1) hj (by omega) hj1
    · have hje : j = g.medFilterWin - 1 := by omega
      subst hje
      rw [getD_eq_elem _ _ _ (by omega)]
  refine ⟨hout, hmin, hmax, ?_, ?_, ?_, ?_⟩
  · rw [hmin]; exact hminmem
  · rw [hmin]; exact hminle
  · rw [hmax]; exact hmaxmem
  · rw [hmax]; exact hmaxge

/-! ### Facts about the freshly constructed filter and the statistics -/

theorem make_out_seed (size seed : Int) : (MedianFilter.make size seed).out = seed := by
  have h3 := constrain_lower size
  have hmdp : (constrain size 3 255).toNat >>> 1 < (constrain size 3 255).toNat := by
    rw [Nat.shiftRight_eq_div_pow, pow_one]
    exact Nat.div_lt_self (by omega) (by omega)
  simp only [MedianFilter.out, MedianFilter.make]
  rw [getD_range, if_pos hmdp, getD_replicate, if_pos hmdp]

theorem make_getMin_seed (size seed : Int) : (MedianFilter.make size seed).getMin = seed := by
  have h3 := constrain_lower size
  simp only [MedianFilter.getMin, MedianFilter.make]
  rw [getD_range, if_pos (by omega : 0 < (constrain size 3 255).toNat), getD_replicate,
    if_pos (by omega : 0 < (constrain size 3 255).toNat)]

theorem make_getMax_seed (size seed : Int) : (MedianFilter.make size seed).getMax = seed := by
  have h3 := constrain_lower size
  simp only [MedianFilter.getMax, MedianFilter.make]
  rw [getD_range,
    if_pos (by omega : (constrain size 3 255).toNat - 1 < (constrain size 3 255).toNat),
    getD_replicate,
    if_pos (by omega : (constrain size 3 255).toNat - 1 < (constrain size 3 255).toNat)]

theorem make_getMean_seed (size seed : Int) : (MedianFilter.make size seed).getMean = seed := by
  have h3 := constrain_lower size
  simp only [MedianFilter.getMean, MedianFilter.make]
  exact Int.mul_tdiv_cancel_left seed (by omega)

theorem foldl_add_range {M : Type} [AddCommMonoid M] (g : Nat → M) :
    ∀ n, (List.range n).foldl (fun acc i => acc + g i) 0 = ∑ i ∈ Finset.range n, g i := by
  intro n
  induction n with
  | zero => simp
  | succ n ih =>
    rw [List.range_succ, List.foldl_append, ih, Finset.sum_range_succ]
    rfl

theorem diffSquareSum_eq_sum (f : MedianFilter) :
    f.diffSquareSum = ∑ i ∈ Finset.range f.medFilterWin,
      (f.data.getD i 0 - f.getMean) * (f.data.getD i 0 - f.getMean) :=
  foldl_add_range _ _

theorem getStdDev_formula (f : MedianFilter) :
    MedianFilter.getStdDev f =
      ⌊Real.sqrt ((f.diffSquareSum : ℝ) / ((f.medFilterWin : ℝ) - 1) + 0.5)⌋ := rfl

theorem getStdDevClaimed_formula (f : MedianFilter) :
    MedianFilter.getStdDevClaimed f =
      ⌊Real.sqrt ((f.diffSquareSum : ℝ) / ((f.medFilterWin : ℝ) - 1)) + 0.5⌋ := rfl

theorem getStdDevFloat_formula (f : MedianFilter) :
    MedianFilter.getStdDevFloat f =
      Real.sqrt (((List.range f.medFilterWin).foldl
        (fun acc i => acc +
          ((f.data.getD i 0 : ℝ) - (f.totalSum : ℝ) / (f.medFilterWin : ℝ)) *
          ((f.data.getD i 0 : ℝ) - (f.totalSum : ℝ) / (f.medFilterWin : ℝ))) 0) /
        ((f.medFilterWin : ℝ) - 1) + 0.5) := rfl

/-! ### The claims -/

/-- C1: for every constructed window (the constructor clamps every requested
size into [3,255]) and every sequence of inserted values, the value returned by
`in` after an insertion equals the element at rank `⌊N/2⌋` of the current
N-sample window sorted ascending, and `getMin`/`getMax` equal the smallest and
largest elements of that window — they all match a from-scratch sort of the
current window. -/
theorem median_filter_matches_sort (size seed : Int) (vs : List Int) (v : Int)
    (g : MedianFilter) (m : Int)
    (hgm : (runFilter size seed vs).insert v = (g, m)) :
    m = (sortedWindow g).getD (g.medFilterWin / 2) 0 ∧
    g.getMin = (sortedWindow g).getD 0 0 ∧
    g.getMax = (sortedWindow g).getD (g.medFilterWin - 1) 0 ∧
    g.getMin ∈ g.data ∧ (∀ x ∈ g.data, g.getMin ≤ x) ∧
    g.getMax ∈ g.data ∧ (∀ x ∈ g.data, x ≤ g.getMax) := by
  have hv : Valid g := by
    have h := (insert_spec (runFilter size seed vs) v (valid_run size seed vs)).1
    rw [hgm] at h
    exact h
  have hm : m = g.out := by
    have h : ((runFilter size seed vs).insert v).1.out =
        ((runFilter size seed vs).insert v).2 := rfl
    rw [hgm] at h
    exact h.symm
  obtain ⟨h1, h2, h3, h4, h5, h6, h7⟩ := median_min_max g hv
  exact ⟨hm.trans h1, h2, h3, h4, h5, h6, h7⟩

/-- Witness for C1 at a concrete run: window 5 seeded 0, insertions 3,1,4,1,
then 5; the returned median is the rank-2 element of the sorted window. -/
theorem median_filter_matches_sort_witness :
    ((runFilter 5 0 [3, 1, 4, 1]).insert 5).2 =
      (sortedWindow ((runFilter 5 0 [3, 1, 4, 1]).insert 5).1).getD
        (((runFilter 5 0 [3, 1, 4, 1]).insert 5).1.medFilterWin / 2) 0 ∧
    ((runFilter 5 0 [3, 1, 4, 1]).insert 5).1.getMin =
      (sortedWindow ((runFilter 5 0 [3, 1, 4, 1]).insert 5).1).getD 0 0 ∧
    ((runFilter 5 0 [3, 1, 4, 1]).insert 5).1.getMax =
      (sortedWindow ((runFilter 5 0 [3, 1, 4, 1]).insert 5).1).getD
        (((runFilter 5 0 [3, 1, 4, 1]).insert 5).1.medFilterWin - 1) 0 ∧
    ((runFilter 5 0 [3, 1, 4, 1]).insert 5).1.getMin ∈
      ((runFilter 5 0 [3, 1, 4, 1]).insert 5).1.data ∧
    (∀ x ∈ ((runFilter 5 0 [3, 1, 4, 1]).insert 5).1.data,
      ((runFilter 5 0 [3, 1, 4, 1]).insert 5).1.getMin ≤ x) ∧
    ((runFilter 5 0 [3, 1, 4, 1]).insert 5).1.getMax ∈
      ((runFilter 5 0 [3, 1, 4, 1]).insert 5).1.data ∧
    (∀ x ∈ ((runFilter 5 0 [3, 1, 4, 1]).insert 5).1.data,
      x ≤ ((runFilter 5 0 [3, 1, 4, 1]).insert 5).1.getMax) :=
  median_filter_matches_sort 5 0 [3, 1, 4, 1] 5
    ((runFilter 5 0 [3, 1, 4, 1]).insert 5).1
    ((runFilter 5 0 [3, 1, 4, 1]).insert 5).2 rfl

/-- C2: after any sequence of insertions starting from a freshly constructed
filter, `locationMap` and `sizeMap` are mutually inverse permutations of
`{0..N-1}`, and the values read in rank order through `sizeMap` are
non-decreasing. -/
theorem rank_maps_inverse_sorted (size seed : Int) (vs : List Int) :
    (∀ k, k < (runFilter size seed vs).medFilterWin →
      (runFilter size seed vs).sizeMap.getD k 0 < (runFilter size seed vs).medFilterWin ∧
      (runFilter size seed vs).locationMap.getD k 0 < (runFilter size seed vs).medFilterWin ∧
      (runFilter size seed vs).locationMap.getD
        ((runFilter size seed vs).sizeMap.getD k 0) 0 = k ∧
      (runFilter size seed vs).sizeMap.getD
        ((runFilter size seed vs).locationMap.getD k 0) 0 = k) ∧
    (∀ r, r + 1 < (runFilter size seed vs).medFilterWin →
      (runFilter size seed vs).data.getD ((runFilter size seed vs).sizeMap.getD r 0) 0 ≤
      (runFilter size seed vs).data.getD
        ((runFilter size seed vs).sizeMap.getD (r + 1) 0) 0) := by
  have hv := valid_run size seed vs
  exact ⟨fun k hk => ⟨hv.hsmlt k hk, hv.hlmlt k hk, hv.hls k hk, hv.hsl k hk⟩, hv.hsorted⟩

/-- Witness for C2 at a concrete run, rank/slot 2 and the sorted pair (1,2). -/
theorem rank_maps_inverse_sorted_witness :
    ((runFilter 5 0 [3, 1, 4]).sizeMap.getD 2 0 < (runFilter 5 0 [3, 1, 4]).medFilterWin ∧
     (runFilter 5 0 [3, 1, 4]).locationMap.getD 2 0 <
       (runFilter 5 0 [3, 1, 4]).medFilterWin ∧
     (runFilter 5 0 [3, 1, 4]).locationMap.getD
       ((runFilter 5 0 [3, 1, 4]).sizeMap.getD 2 0) 0 = 2 ∧
     (runFilter 5 0 [3, 1, 4]).sizeMap.getD
       ((runFilter 5 0 [3, 1, 4]).locationMap.getD 2 0) 0 = 2) ∧
    ((runFilter 5 0 [3, 1, 4]).data.getD ((runFilter 5 0 [3, 1, 4]).sizeMap.getD 1 0) 0 ≤
     (runFilter 5 0 [3, 1, 4]).data.getD ((runFilter 5 0 [3, 1, 4]).sizeMap.getD 2 0) 0) :=
  ⟨(rank_maps_inverse_sorted 5 0 [3, 1, 4]).1 2 (by decide),
   (rank_maps_inverse_sorted 5 0 [3, 1, 4]).2 1 (by decide)⟩

/-- C3 counterexample: with window size 4 seeded with 0 and insertions
1, 2, 3, 4, the returned median is NOT the element at sorted rank 1 (the
lower-middle): the code returns `data[sizeMap[N >> 1]]`, rank 2. -/
theorem even_median_counterexample :
    ¬(((runFilter 4 0 [1, 2, 3]).insert 4).2 =
      (sortedWindow ((runFilter 4 0 [1, 2, 3]).insert 4).1).getD 1 0) := by decide

/-- C3 amended: for an even window size the median returned by `in` and `out`
is the UPPER-middle ranked element (0-based rank `N/2`), not the lower-middle
and not an average: with window size 4 seeded 0, after inserting 1, 2, 3, 4
the returned median is 3 — the element at sorted rank 2 of the window — while
the rank-1 element is 2, and `out` agrees with the returned value. -/
theorem even_median_upper_middle :
    ((runFilter 4 0 [1, 2, 3]).insert 4).2 = 3 ∧
    (sortedWindow ((runFilter 4 0 [1, 2, 3]).insert 4).1).getD 2 0 = 3 ∧
    (sortedWindow ((runFilter 4 0 [1, 2, 3]).insert 4).1).getD 1 0 = 2 ∧
    ((runFilter 4 0 [1, 2, 3]).insert 4).1.out = 3 ∧
    (MedianFilter.make 4 0).medDataPointer = 2 ∧
    (MedianFilter.make 4 0).medFilterWin = 4 := by decide

/-- C5: after any sequence of insertions `totalSum` equals the exact sum of the
window, each insertion updates it by the delta `value - oldest`, and `getMean`
returns `totalSum / N` with C truncating division, hence `sum(window) / N`. -/
theorem running_sum_and_mean (size seed : Int) (vs : List Int) (v : Int) :
    (runFilter size seed vs).totalSum = (runFilter size seed vs).data.sum ∧
    ((runFilter size seed vs).insert v).1.totalSum =
      (runFilter size seed vs).totalSum +
        (v - (runFilter size seed vs).data.getD
          (runFilter size seed vs).oldestDataPoint 0) ∧
    (runFilter size seed vs).getMean =
      Int.tdiv ((runFilter size seed vs).data.sum)
        ((runFilter size seed vs).medFilterWin : Int) := by
  have hv := valid_run size seed vs
  refine ⟨hv.hsum, ?_, ?_⟩
  · have h : ((runFilter size seed vs).insert v).1.totalSum =
        (runFilter size seed vs).totalSum + v -
          (runFilter size seed vs).data.getD
            (runFilter size seed vs).oldestDataPoint 0 := rfl
    rw [h]
    ring
  · rw [show (runFilter size seed vs).getMean =
      Int.tdiv (runFilter size seed vs).totalSum
        ((runFilter size seed vs).medFilterWin : Int) from rfl, hv.hsum]

/-- C6: inserting a value equal to an existing window member triggers no shift
past that member (the new value's rank stays on the same side of every
equal-valued member), and pre-existing equal-valued members keep their prior
relative rank order. -/
theorem tie_stability (size seed : Int) (vs : List Int) (v : Int) :
    (∀ k₁ k₂, k₁ < (runFilter size seed vs).medFilterWin →
      k₂ < (runFilter size seed vs).medFilterWin →
      k₁ ≠ (runFilter size seed vs).oldestDataPoint →
      k₂ ≠ (runFilter size seed vs).oldestDataPoint →
      (runFilter size seed vs).data.getD k₁ 0 = (runFilter size seed vs).data.getD k₂ 0 →
      (((runFilter size seed vs).insert v).1.locationMap.getD k₁ 0 <
        ((runFilter size seed vs).insert v).1.locationMap.getD k₂ 0 ↔
       (runFilter size seed vs).locationMap.getD k₁ 0 <
        (runFilter size seed vs).locationMap.getD k₂ 0)) ∧
    (∀ k, k < (runFilter size seed vs).medFilterWin →
      k ≠ (runFilter size seed vs).oldestDataPoint →
      (runFilter size seed vs).data.getD k 0 = v →
      (((runFilter size seed vs).insert v).1.locationMap.getD k 0 <
        ((runFilter size seed vs).insert v).1.locationMap.getD
          (runFilter size seed vs).oldestDataPoint 0 ↔
       (runFilter size seed vs).locationMap.getD k 0 <
        (runFilter size seed vs).locationMap.getD
          (runFilter size seed vs).oldestDataPoint 0)) := by
  have hv := valid_run size seed vs
  obtain ⟨-, -, r, hrN, hlmo', hchar, hstrict⟩ :=
    insert_spec (runFilter size seed vs) v hv
  have hneq : ∀ k, k < (runFilter size seed vs).medFilterWin →
      k ≠ (runFilter size seed vs).oldestDataPoint →
      (runFilter size seed vs).locationMap.getD k 0 ≠
        (runFilter size seed vs).locationMap.getD
          (runFilter size seed vs).oldestDataPoint 0 := by
    intro k hk hko heq
    have h1 := hv.hsl k hk
    have h2 := hv.hsl (runFilter size seed vs).oldestDataPoint hv.hold
    rw [heq] at h1
    exact hko (h1.symm.trans h2)
  constructor
  · intro k₁ k₂ hk₁ hk₂ hko₁ hko₂ _hval
    have h1 := hneq k₁ hk₁ hko₁
    have h2 := hneq k₂ hk₂ hko₂
    rw [hchar k₁ hk₁ hko₁, hchar k₂ hk₂ hko₂]
    split_ifs <;> omega
  · intro k hk hko hval
    have hne := hneq k hk hko
    have hw1 : ¬(r ≤ (runFilter size seed vs).locationMap.getD k 0 ∧
        (runFilter size seed vs).locationMap.getD k 0 <
          (runFilter size seed vs).locationMap.getD
            (runFilter size seed vs).oldestDataPoint 0) := by
      intro hw
      have h := (hstrict k hk hko).1 hw.1 hw.2
      rw [hval] at h
      exact lt_irrefl v h
    have hw2 : ¬((runFilter size seed vs).locationMap.getD
          (runFilter size seed vs).oldestDataPoint 0 <
        (runFilter size seed vs).locationMap.getD k 0 ∧
        (runFilter size seed vs).locationMap.getD k 0 ≤ r) := by
      intro hw
      have h := (hstrict k hk hko).2 hw.1 hw.2
      rw [hval] at h
      exact lt_irrefl v h
    rw [hchar k hk hko, hlmo', if_neg hw1, if_neg hw2]
    omega

/-- Witness for C6 at a concrete run: window 5 seeded 0, insertions 2, 2, 7,
then inserting 2 again; slots 2 and 3 hold equal values and slot 2 equals the
inserted value. -/
theorem tie_stability_witness :
    ((((runFilter 5 0 [2, 2, 7]).insert 2).1.locationMap.getD 2 0 <
        ((runFilter 5 0 [2, 2, 7]).insert 2).1.locationMap.getD 3 0 ↔
      (runFilter 5 0 [2, 2, 7]).locationMap.getD 2 0 <
        (runFilter 5 0 [2, 2, 7]).locationMap.getD 3 0)) ∧
    ((((runFilter 5 0 [2, 2, 7]).insert 2).1.locationMap.getD 2 0 <
        ((runFilter 5 0 [2, 2, 7]).insert 2).1.locationMap.getD
          (runFilter 5 0 [2, 2, 7]).oldestDataPoint 0 ↔
      (runFilter 5 0 [2, 2, 7]).locationMap.getD 2 0 <
        (runFilter 5 0 [2, 2, 7]).locationMap.getD
          (runFilter 5 0 [2, 2, 7]).oldestDataPoint 0)) :=
  ⟨(tie_stability 5 0 [2, 2, 7] 2).1 2 3 (by decide) (by decide) (by decide) (by decide)
      (by decide),
   (tie_stability 5 0 [2, 2, 7] 2).2 2 (by decide) (by decide) (by decide)⟩

/-- C7: construction silently clamps the requested window size into [3,255]
(the model is total, so no error is raised): size 1 yields an effective window
of 3 and size 300 yields 255. -/
theorem window_clamp (size seed : Int) :
    3 ≤ (MedianFilter.make size seed).medFilterWin ∧
    (MedianFilter.make size seed).medFilterWin ≤ 255 ∧
    (MedianFilter.make 1 seed).medFilterWin = 3 ∧
    (MedianFilter.make 300 seed).medFilterWin = 255 :=
  ⟨(valid_make size seed).hN3, (valid_make size seed).hN255, rfl, rfl⟩

/-- C8: immediately after construction with any window size and seed `s`, and
before any insertion, `out`, `getMin`, `getMax` and `getMean` all return `s`. -/
theorem seed_behaviour (size seed : Int) :
    (MedianFilter.make size seed).out = seed ∧
    (MedianFilter.make size seed).getMin = seed ∧
    (MedianFilter.make size seed).getMax = seed ∧
    (MedianFilter.make size seed).getMean = seed :=
  ⟨make_out_seed size seed, make_getMin_seed size seed, make_getMax_seed size seed,
   make_getMean_seed size seed⟩

/-- C9: `out` returns exactly the value the most recent `in` returned (and the
seed before any insertion), and calling `out` — a `const` method modelled as a
state transformer — changes no part of the filter state. -/
theorem peek_consistency (f : MedianFilter) (v size seed : Int) :
    ((f.insert v).1).out = (f.insert v).2 ∧
    (MedianFilter.make size seed).out = seed ∧
    (MedianFilter.outCall f).1 = f ∧
    (MedianFilter.outCall f).2 = f.out :=
  ⟨rfl, make_out_seed size seed, rfl, rfl⟩

/-- C4 counterexample: on the window {0, 0, 3} (size 3, seed 0, one insertion
of 3) the sum of squared deviations is 6, so the quotient is 3; the code
computes `⌊√(3 + 0.5)⌋ = 1`, while the formula the claim describes (0.5 added
AFTER the square root) gives `⌊√3 + 0.5⌋ = 2`. -/
theorem stddev_rounding_counterexample :
    MedianFilter.getStdDev (runFilter 3 0 [3]) = 1 ∧
    MedianFilter.getStdDevClaimed (runFilter 3 0 [3]) = 2 ∧
    MedianFilter.getStdDev (runFilter 3 0 [3]) ≠
      MedianFilter.getStdDevClaimed (runFilter 3 0 [3]) := by
  have h1 : (runFilter 3 0 [3]).diffSquareSum = 6 := by decide
  have h2 : (runFilter 3 0 [3]).medFilterWin = 3 := by decide
  have key1 : (⌊Real.sqrt ((7 : ℝ) / 2)⌋ : ℤ) = 1 := by
    rw [Int.floor_eq_iff]
    refine ⟨?_, ?_⟩
    · rw [show (((1 : ℤ) : ℝ)) = 1 by norm_num, Real.one_le_sqrt]
      norm_num
    · rw [show (((1 : ℤ) : ℝ)) + 1 = 2 by norm_num, Real.sqrt_lt' (by norm_num)]
      norm_num
  have key2 : (⌊Real.sqrt (3 : ℝ) + 0.5⌋ : ℤ) = 2 := by
    rw [Int.floor_eq_iff]
    constructor
    · rw [show (((2 : ℤ) : ℝ)) = 3 / 2 + 1 / 2 by norm_num,
        show (0.5 : ℝ) = 1 / 2 by norm_num]
      have h : (3 : ℝ) / 2 ≤ Real.sqrt 3 := by
        rw [Real.le_sqrt (by norm_num) (by norm_num)]
        norm_num
      linarith
    · rw [show (((2 : ℤ) : ℝ)) + 1 = 5 / 2 + 1 / 2 by norm_num,
        show (0.5 : ℝ) = 1 / 2 by norm_num]
      have h : Real.sqrt 3 < 5 / 2 := by
        rw [Real.sqrt_lt' (by norm_num)]
        norm_num
      linarith
  have e1 : MedianFilter.getStdDev (runFilter 3 0 [3]) = ⌊Real.sqrt ((7 : ℝ) / 2)⌋ := by
    rw [getStdDev_formula, h1, h2]
    norm_num
  have e2 : MedianFilter.getStdDevClaimed (runFilter 3 0 [3]) =
      ⌊Real.sqrt (3 : ℝ) + 0.5⌋ := by
    rw [getStdDevClaimed_formula, h1, h2]
    norm_num
  refine ⟨e1.trans key1, e2.trans key2, ?_⟩
  rw [e1, key1, e2, key2]
  omega

/-- C4 amended: `getStdDev` sums the squared differences `(data[i] - mean)²`
(with the just-computed, possibly truncated mean) over all N window values in
the accumulator type, divides by `N - 1` in `double`, adds `0.5` to that
quotient BEFORE the square root, takes the floating-point square root, and
truncates the result back to the accumulator type. -/
theorem stddev_formula_amended (f : MedianFilter) :
    MedianFilter.getStdDev f =
      ⌊Real.sqrt (((∑ i ∈ Finset.range f.medFilterWin,
        (f.data.getD i 0 - f.getMean) * (f.data.getD i 0 - f.getMean) : ℤ) : ℝ) /
        ((f.medFilterWin : ℝ) - 1) + 0.5)⌋ := by
  rw [getStdDev_formula, diffSquareSum_eq_sum]

/-- C10: when every value in the window equals `c` (for example immediately
after construction, before any insertion), `getStdDev` returns
`Sum(sqrt(0.5))`: this truncates to 0 for an integral accumulator type, but
for a floating-point accumulator the result is `sqrt(0.5)` (about 0.707), not
0, because the 0.5 rounding offset is added under the square root rather than
to its result. -/
theorem stddev_all_equal (f : MedianFilter) (c : Int)
    (hN : 3 ≤ f.medFilterWin)
    (hdata : f.data = List.replicate f.medFilterWin c)
    (hsum : f.totalSum = (f.medFilterWin : Int) * c) :
    MedianFilter.getStdDev f = 0 ∧
    MedianFilter.getStdDevFloat f = Real.sqrt (1 / 2) ∧
    MedianFilter.getStdDevFloat f ≠ 0 := by
  have hNz : ((f.medFilterWin : Int)) ≠ 0 := by omega
  have hmean : f.getMean = c := by
    rw [show f.getMean = Int.tdiv f.totalSum (f.medFilterWin : Int) from rfl, hsum]
    exact Int.mul_tdiv_cancel_left c hNz
  have hdss : f.diffSquareSum = 0 := by
    rw [diffSquareSum_eq_sum]
    refine Finset.sum_eq_zero ?_
    intro i hi
    rw [Finset.mem_range] at hi
    rw [hdata, getD_replicate, if_pos hi, hmean]
    ring
  have hNR : ((f.medFilterWin : ℝ)) ≠ 0 := Nat.cast_ne_zero.mpr (by omega)
  have hmeanF : (f.totalSum : ℝ) / (f.medFilterWin : ℝ) = (c : ℝ) := by
    rw [hsum]
    push_cast
    exact mul_div_cancel_left₀ _ hNR
  have heqF : MedianFilter.getStdDevFloat f = Real.sqrt (1 / 2) := by
    rw [getStdDevFloat_formula]
    have hz : (List.range f.medFilterWin).foldl
        (fun acc i => acc +
          ((f.data.getD i 0 : ℝ) - (f.totalSum : ℝ) / (f.medFilterWin : ℝ)) *
          ((f.data.getD i 0 : ℝ) - (f.totalSum : ℝ) / (f.medFilterWin : ℝ))) 0 = 0 := by
      rw [foldl_add_range]
      refine Finset.sum_eq_zero ?_
      intro i hi
      rw [Finset.mem_range] at hi
      rw [hdata, getD_replicate, if_pos hi, hmeanF]
      ring
    rw [hz, zero_div, zero_add]
    norm_num
  refine ⟨?_, heqF, ?_⟩
  · rw [getStdDev_formula, hdss, Int.cast_zero, zero_div, zero_add,
      Int.floor_eq_zero_iff]
    refine Set.mem_Ico.mpr ⟨Real.sqrt_nonneg _, ?_⟩
    rw [Real.sqrt_lt' (by norm_num)]
    norm_num
  · rw [heqF]
    exact ne_of_gt (Real.sqrt_pos.mpr (by norm_num))

/-- Witness for C10: the freshly constructed filter with window 5 and seed 7. -/
theorem stddev_all_equal_witness :
    MedianFilter.getStdDev (MedianFilter.make 5 7) = 0 ∧
    MedianFilter.getStdDevFloat (MedianFilter.make 5 7) = Real.sqrt (1 / 2) ∧
    MedianFilter.getStdDevFloat (MedianFilter.make 5 7) ≠ 0 :=
  stddev_all_equal (MedianFilter.make 5 7) 7 (by decide) (by decide) (by decide)

end MedianFilterModel
